import Mathlib

/-!
# Unit conversion (`convert.cpp`): registry tables, alias normalisation, conversion engine

Shallow embedding of `src/convert.cpp`.

* `std::string` is a Lean `String`.  All keys of the tables are ASCII; `std::tolower` in the
  default "C" locale rewrites exactly the bytes `A`..`Z`, which is what `tolower` below does
  to the characters of a string (a character outside ASCII is a sequence of bytes `>= 0x80`
  in UTF-8, none of which `std::tolower` changes).
* `double` is embedded twice.  In `convert` it is `ℚ`: the decimal literals of the tables are
  taken as the exact rationals they denote and `*`, `/`, `+`, `-` are exact; this serves the
  statements on which branch is taken, which formula is applied and which error is raised.
  In `IEEE.convert` it is `F64`, IEEE-754 binary64 with round-to-nearest-even, overflow to
  infinity, gradual underflow, signed zeros and NaN; this serves the statements that depend
  on rounding (round trip, identity, composition).
* `std::unordered_map<std::string, V>` built from an initializer list is an association list
  `List (String × V)`; `find`/`count`/`at`/`operator[]` read the first entry with the key.
* A C++ exception is the `error` side of `Except Exn _`.
-/

namespace Convert

/-- The exceptions the program can raise, with the `what()` message where one is given. -/
inductive Exn where
  | runtime_error (what : String)
  | invalid_argument (what : String)
  | out_of_range
  | bad_function_call
  deriving DecidableEq, Repr

/-- Equality of results is decidable, so that a run of the program can be evaluated. -/
instance instDecidableEqExcept {ε α : Type} [DecidableEq ε] [DecidableEq α] :
    DecidableEq (Except ε α)
  | .ok a, .ok b => if h : a = b then isTrue (by rw [h]) else isFalse (fun h2 => h (by cases h2; rfl))
  | .error a, .error b =>
    if h : a = b then isTrue (by rw [h]) else isFalse (fun h2 => h (by cases h2; rfl))
  | .ok _, .error _ => isFalse (fun h => by cases h)
  | .error _, .ok _ => isFalse (fun h => by cases h)

/-- `std::unordered_map<std::string, V>` as an association list. -/
abbrev UMap (V : Type) := List (String × V)

/-- `m.find(k)`: the mapped value when the key is present. -/
def find {V : Type} (m : UMap V) (k : String) : Option V :=
  m.lookup k

/-- `m.count(k)`: 1 when the key is present, 0 otherwise. -/
def count {V : Type} (m : UMap V) (k : String) : Nat :=
  if (find m k).isSome then 1 else 0

/-- `m.at(k)`: the mapped value, `std::out_of_range` when the key is absent. -/
def map_at {V : Type} (m : UMap V) (k : String) : Except Exn V :=
  match find m k with
  | some v => .ok v
  | none => .error .out_of_range

def length_factors : UMap ℚ := [
  ("m", 1.0),
  ("cm", 0.01),
  ("mm", 0.001),
  ("ft", 0.3048),
  ("yd", 0.9144),
  ("km", 1000),
  ("mi", 1609.34)
]

def mass_factors : UMap ℚ := [
  ("kg", 1.0),
  ("g", 0.001),
  ("lb", 0.453592),
  ("oz", 0.0283495)
]

def volume_factors : UMap ℚ := [
  ("L", 1.0),
  ("l", 1.0),
  ("mL", 0.001),
  ("ml", 0.001),
  ("uL", 0.000001),
  ("ul", 0.000001),
  ("gal", 3.78541),
  ("qt", 0.946353),
  ("pt", 0.473176),
  ("cup", 0.24),
  ("floz", 0.0295735),
  ("tbsp", 0.0147868),
  ("tsp", 0.00492892),
  ("m3", 1000.0),
  ("cm3", 0.001),
  ("cc", 0.001),
  ("in3", 0.0163871),
  ("ft3", 28.3168)
]

structure TempUnit where
  to_celsius : ℚ → ℚ
  from_celsius : ℚ → ℚ

def temp_units : UMap TempUnit := [
  ("C", ⟨fun c => c, fun c => c⟩),
  ("F", ⟨fun f => (f - 32.0) * 5.0 / 9.0, fun c => c * 9.0 / 5.0 + 32.0⟩),
  ("K", ⟨fun k => k - 273.15, fun c => c + 273.15⟩)
]

/-- `temp_units[k]` followed by a call of one of its functions: on an absent key `operator[]`
yields a `TempUnit` of empty `std::function`s, whose call raises `std::bad_function_call`. -/
def temp_call (k : String) (sel : TempUnit → ℚ → ℚ) (x : ℚ) : Except Exn ℚ :=
  match find temp_units k with
  | some u => .ok (sel u x)
  | none => .error .bad_function_call

def unit_aliases : UMap String := [
  ("meter", "m"), ("meters", "m"),
  ("metre", "m"), ("metres", "m"),
  ("kilometer", "km"), ("kilometers", "km"),
  ("kilometre", "km"), ("kilometres", "km"),
  ("foot", "ft"), ("feet", "ft"),
  ("yard", "yd"), ("yards", "yd"),
  ("mile", "mi"), ("miles", "mi"),
  ("kilogram", "kg"), ("kilograms", "kg"),
  ("gram", "g"), ("grams", "g"),
  ("pound", "lb"), ("pounds", "lb"),
  ("lbs", "lb"),
  ("ounce", "oz"), ("ounces", "oz"),
  ("liter", "L"), ("liters", "L"),
  ("litre", "L"), ("litres", "L"),
  ("milliliter", "mL"), ("milliliters", "mL"),
  ("millilitre", "mL"), ("millilitres", "mL"),
  ("cup", "cup"), ("cups", "cup"),
  ("tablespoon", "tbsp"), ("tablespoons", "tbsp"),
  ("teaspoon", "tsp"), ("teaspoons", "tsp"),
  ("c", "C"), ("celsius", "C"), ("centigrade", "C"),
  ("f", "F"), ("fahrenheit", "F"),
  ("k", "K"), ("kelvin", "K")
]

/-- `std::tolower` in the "C" locale: `A`..`Z` go to `a`..`z`, everything else is kept. -/
def tolower (ch : Char) : Char :=
  if 65 ≤ ch.toNat ∧ ch.toNat ≤ 90 then Char.ofNat (ch.toNat + 32) else ch

def to_lower (s : String) : String :=
  ⟨s.data.map tolower⟩

def normalize_unit (u : String) : String :=
  let lower := to_lower u
  match find unit_aliases lower with
  | some second => second
  | none => u

def convert (from_unit to_unit : String) (value : ℚ) : Except Exn ℚ :=
  let from_is_length : Bool := count length_factors from_unit > 0
  let to_is_length : Bool := count length_factors to_unit > 0
  let from_is_mass : Bool := count mass_factors from_unit > 0
  let to_is_mass : Bool := count mass_factors to_unit > 0
  let from_is_volume : Bool := count volume_factors from_unit > 0
  let to_is_volume : Bool := count volume_factors to_unit > 0
  let from_is_temp : Bool := count temp_units from_unit > 0
  let to_is_temp : Bool := count temp_units to_unit > 0
  if count length_factors from_unit > 0 ∧ count length_factors to_unit > 0 then
    match map_at length_factors from_unit, map_at length_factors to_unit with
    | .ok from_factor, .ok to_factor =>
      let value_in_meters := value * from_factor
      let result := value_in_meters / to_factor
      .ok result
    | .error e, _ => .error e
    | _, .error e => .error e
  else if count mass_factors from_unit > 0 ∧ count mass_factors to_unit > 0 then
    match map_at mass_factors from_unit, map_at mass_factors to_unit with
    | .ok from_factor, .ok to_factor =>
      let value_in_kilograms := value * from_factor
      let result := value_in_kilograms / to_factor
      .ok result
    | .error e, _ => .error e
    | _, .error e => .error e
  else if count volume_factors from_unit > 0 ∧ count volume_factors to_unit > 0 then
    match map_at volume_factors from_unit, map_at volume_factors to_unit with
    | .ok from_factor, .ok to_factor =>
      let value_in_liters := value * from_factor
      let result := value_in_liters / to_factor
      .ok result
    | .error e, _ => .error e
    | _, .error e => .error e
  else if count temp_units from_unit > 0 ∧ count temp_units to_unit > 0 then
    match temp_call from_unit TempUnit.to_celsius value with
    | .ok temp_in_celcius => temp_call to_unit TempUnit.from_celsius temp_in_celcius
    | .error e => .error e
  else if (from_is_length && !to_is_length) ||
      (from_is_mass && !to_is_mass) ||
      (from_is_volume && !to_is_volume) ||
      (from_is_temp && !to_is_temp) then
    .error (.runtime_error "Incompatible unit types (eg., length vs. mass)")
  else
    .error (.runtime_error ("Unknown unit(s): from='" ++ from_unit ++ "', to='" ++ to_unit ++ "'"))

/-- The `what()` of the exception thrown for units of different kinds. -/
def IncompatibleUnits : Exn :=
  .runtime_error "Incompatible unit types (eg., length vs. mass)"

/-- The `what()` of the exception thrown for unrecognised units, naming both. -/
def UnknownUnit (from_unit to_unit : String) : Exn :=
  .runtime_error ("Unknown unit(s): from='" ++ from_unit ++ "', to='" ++ to_unit ++ "'")

/-- The four categories, one per table of the registry. -/
inductive Category where
  | Length
  | Mass
  | Volume
  | Temperature
  deriving DecidableEq, Repr

/-- `isKey c u`: the string `u` is a key of the table of category `c`
(`length_factors`, `mass_factors`, `volume_factors`, `temp_units`), as `convert` tests it. -/
def isKey : Category → String → Bool
  | .Length, u => count length_factors u > 0
  | .Mass, u => count mass_factors u > 0
  | .Volume, u => count volume_factors u > 0
  | .Temperature, u => count temp_units u > 0

/-- The keys of the table of a category, in the order of the source. -/
def keys : Category → List String
  | .Length => length_factors.map Prod.fst
  | .Mass => mass_factors.map Prod.fst
  | .Volume => volume_factors.map Prod.fst
  | .Temperature => temp_units.map Prod.fst

/-- The temperature transforms as the specification words them: Celsius is the identity,
Fahrenheit has `(f - 32) * 5 / 9`, Kelvin has `k - 273.15`. -/
def spec_to_celsius (u : String) (x : ℚ) : ℚ :=
  if u = "F" then (x - 32) * 5 / 9 else if u = "K" then x - 273.15 else x

/-- The inverse transforms as the specification words them: Celsius is the identity,
Fahrenheit has `c * 9 / 5 + 32`, Kelvin has `c + 273.15`. -/
def spec_from_celsius (u : String) (c : ℚ) : ℚ :=
  if u = "F" then c * 9 / 5 + 32 else if u = "K" then c + 273.15 else c

/-! ## Argument handling -/

/-- The result of `parse_args`.  `double value;` has no initialiser: the field is `none`
until a number is assigned to it. -/
structure Args where
  from_unit : String
  to_unit : String
  value : Option ℚ
  show_help : Bool
  list_units : Bool
  deriving DecidableEq

/-- The locals of `parse_args`: `result`, `have_from`, `have_to`, `have_value`. -/
structure ParseState where
  result : Args
  have_from : Bool
  have_to : Bool
  have_value : Bool
  deriving DecidableEq

/-- The loop `for (int i = 1; i < argc; ++i)` of `parse_args`, on the arguments that are
still to be read.  `stod` stands for `std::stod` of the C++ library, `none` when it throws
(the `catch` then rethrows `std::invalid_argument`).  A flag `-f`/`-t` with a next argument
(`i + 1 < argc`) consumes it (`argv[++i]`); the test `i + 1 >= argc` nested under
`i + 1 < argc` never holds, so its `throw` is absent here; a flag `-f`/`-t` in last position
does nothing. -/
def parse_loop (stod : String → Option ℚ) : List String → ParseState → Except Exn ParseState
  | [], st => .ok st
  | arg :: rest, st =>
    if arg = "-h" ∨ arg = "--help" then
      parse_loop stod rest ⟨⟨st.result.from_unit, st.result.to_unit, st.result.value, true,
        st.result.list_units⟩, st.have_from, st.have_to, st.have_value⟩
    else if arg = "-l" ∨ arg = "--list" ∨ arg = "--units" then
      parse_loop stod rest ⟨⟨st.result.from_unit, st.result.to_unit, st.result.value,
        st.result.show_help, true⟩, st.have_from, st.have_to, st.have_value⟩
    else if arg = "-f" ∨ arg = "--from" then
      match rest with
      | next :: rest2 =>
        parse_loop stod rest2 ⟨⟨normalize_unit next, st.result.to_unit, st.result.value,
          st.result.show_help, st.result.list_units⟩, true, st.have_to, st.have_value⟩
      | [] => .ok st
    else if arg = "-t" ∨ arg = "--to" then
      match rest with
      | next :: rest2 =>
        parse_loop stod rest2 ⟨⟨st.result.from_unit, normalize_unit next, st.result.value,
          st.result.show_help, st.result.list_units⟩, st.have_from, true, st.have_value⟩
      | [] => .ok st
    else
      match stod arg with
      | some x =>
        parse_loop stod rest ⟨⟨st.result.from_unit, st.result.to_unit, some x,
          st.result.show_help, st.result.list_units⟩, st.have_from, st.have_to, true⟩
      | none => .error (.invalid_argument "Value must be a valid number.")

/-- `parse_args(argc, argv)`: `argv` is the whole vector, `argv[0]` included; the loop starts
at `argv[1]`. -/
def parse_args (stod : String → Option ℚ) (argv : List String) : Except Exn Args :=
  match parse_loop stod argv.tail ⟨⟨"", "", none, false, false⟩, false, false, false⟩ with
  | .error e => .error e
  | .ok st =>
    if !st.result.list_units && !st.result.show_help then
      if !st.have_from || !st.have_to || !st.have_value then
        .error (.runtime_error "Missing required arguments")
      else
        .ok st.result
    else
      .ok st.result

/-- How an argument list reads from left to right: a help flag, a list flag, a from-unit or
a to-unit (the flag followed by a token, whatever that token is), a flag `-f`/`-t` that is
the last token with nothing after it, or a free token. -/
inductive Token where
  | help
  | list
  | from_unit (u : String)
  | to_unit (u : String)
  | dangling
  | free (s : String)
  deriving DecidableEq, Repr

/-- The reading of an argument list, left to right. -/
def tokens : List String → List Token
  | [] => []
  | arg :: rest =>
    if arg = "-h" ∨ arg = "--help" then .help :: tokens rest
    else if arg = "-l" ∨ arg = "--list" ∨ arg = "--units" then .list :: tokens rest
    else if arg = "-f" ∨ arg = "--from" then
      match rest with
      | next :: rest2 => .from_unit next :: tokens rest2
      | [] => [.dangling]
    else if arg = "-t" ∨ arg = "--to" then
      match rest with
      | next :: rest2 => .to_unit next :: tokens rest2
      | [] => [.dangling]
    else .free arg :: tokens rest

/-- The from-unit supplied: the last one, when several are. -/
def supplied_from : List Token → Option String
  | [] => none
  | .from_unit u :: ts => some ((supplied_from ts).getD u)
  | _ :: ts => supplied_from ts

/-- The to-unit supplied: the last one, when several are. -/
def supplied_to : List Token → Option String
  | [] => none
  | .to_unit u :: ts => some ((supplied_to ts).getD u)
  | _ :: ts => supplied_to ts

/-- The value token supplied: the last free token, when there are several. -/
def supplied_value : List Token → Option String
  | [] => none
  | .free s :: ts => some ((supplied_value ts).getD s)
  | _ :: ts => supplied_value ts

/-- A stand-in for `std::stod` on which argument lists can be evaluated: it reads the
numerals `5`, `2.5` and `-40` and rejects every other token. -/
def sample_stod (s : String) : Option ℚ :=
  if s = "5" then some 5 else if s = "2.5" then some 2.5 else if s = "-40" then some (-40)
  else none

/-! ## IEEE-754 binary64 arithmetic

`double` as the hardware computes it: every operation returns the binary64 value nearest to
the exact result, ties to even, with overflow to infinity and gradual underflow.  The
expressions of `convert` are a product followed by a quotient, or sums and differences with
constants, so no fused multiply-add can be formed from them. -/

/-- An IEEE-754 binary64 value.  `finite neg m e` is `(-1)^neg * m * 2^e`; the values of the
format are those with `m < 2^53`, `-1074 ≤ e ≤ 971` and `2^52 ≤ m` unless `e = -1074`
(see `F64.canonical`), so that a value has one representation and the two zeros differ by
their sign.  The payload of a NaN is not represented. -/
inductive F64 where
  | finite (neg : Bool) (m : Nat) (e : Int)
  | inf (neg : Bool)
  | nan
  deriving DecidableEq, Repr

namespace F64

/-- The values of the format: normal numbers, subnormal numbers and zeros, infinities, NaN. -/
def canonical : F64 → Prop
  | .finite _ m e => m < 2 ^ 53 ∧ -1074 ≤ e ∧ e ≤ 971 ∧ (2 ^ 52 ≤ m ∨ e = -1074)
  | .inf _ => True
  | .nan => True

/-- Whether the value is a number other than an infinity or a NaN. -/
def isFinite : F64 → Bool
  | .finite _ _ _ => true
  | .inf _ => false
  | .nan => false

/-- A positive normal number `m * 2^e` with `lo ≤ e ≤ hi`. -/
def normalIn (lo hi : Int) : F64 → Bool
  | .finite false m e => decide (2 ^ 52 ≤ m) && decide (m < 2 ^ 53) && decide (lo ≤ e) &&
      decide (e ≤ hi)
  | _ => false

/-- The rational number a finite value stands for (`0` for infinities and NaN). -/
def toRat : F64 → ℚ
  | .finite s m e => (if s then -1 else 1) * (m : ℚ) * (2 : ℚ) ^ e
  | .inf _ => 0
  | .nan => 0

/-- `x` is finite and within `κ * 2^-52 * t` of the rational `t`. -/
def RelApprox (x : F64) (t κ : ℚ) : Prop :=
  isFinite x = true ∧ |toRat x - t| ≤ κ * 2 ^ (-52 : ℤ) * t

/-- `x` is finite and within `ε` of the rational `t`. -/
def AbsApprox (x : F64) (t ε : ℚ) : Prop :=
  isFinite x = true ∧ |toRat x - t| ≤ ε

/-- `x * 2^s` when `s ≥ 0`, and `x` when `s < 0`. -/
def shl (x : Nat) (s : Int) : Nat := x * 2 ^ s.toNat

/-- Halving `n` until it is below 2, at most `fuel` times: the number of halvings. -/
def log2_go : Nat → Nat → Nat
  | 0, _ => 0
  | fuel + 1, n => if n < 2 then 0 else log2_go fuel (n / 2) + 1

/-- The position of the leading bit of `n`: `2 ^ log2 n ≤ n < 2 ^ (log2 n + 1)` for `n > 0`. -/
def log2 (n : Nat) : Nat := log2_go n n

/-- The exponent of the leading bit of `n / d` (`n, d > 0`):
`2 ^ exponent n d ≤ n / d < 2 ^ (exponent n d + 1)`.  It is `log2 n - log2 d` or one less. -/
def exponent (n d : Nat) : Int :=
  let k : Int := (log2 n : Int) - (log2 d : Int)
  if shl d k ≤ shl n (-k) then k else k - 1

/-- The integer nearest to `num / den`, the even one when two are equally near. -/
def roundInt (num den : Nat) : Nat :=
  let m0 := num / den
  let r := num % den
  if den < 2 * r ∨ (2 * r = den ∧ m0 % 2 = 1) then m0 + 1 else m0

/-- Rounding to nearest, ties to even: the binary64 value nearest to `(-1)^neg * n / d`
(`d > 0`).  With `e` the exponent of the leading bit of `n / d`, the spacing of the format
there is `2^q`, `q = max (e - 52) (-1074)`; the quotient `n / d / 2^q` is rounded to the
nearest integer `m`, to the even one in a tie; `m = 2^53` is the next power of two; a result
of `2^1024` or more is infinite. -/
def round (neg : Bool) (n d : Nat) : F64 :=
  if n = 0 then .finite neg 0 (-1074) else
  let q : Int := max (exponent n d - 52) (-1074)
  let m := roundInt (shl n (-q)) (shl d q)
  if m = 2 ^ 53 then
    (if 971 < q + 1 then .inf neg else .finite neg (2 ^ 52) (q + 1))
  else
    (if 971 < q then .inf neg else .finite neg m q)

/-- The value of a decimal literal `n e-p` of the source, e.g. `dec 160934 2` for `1609.34`:
the binary64 value nearest to it. -/
def dec (n p : Nat) : F64 := round false n (10 ^ p)

/-- `a * b`. -/
def mul : F64 → F64 → F64
  | .nan, _ => .nan
  | _, .nan => .nan
  | .inf s1, .inf s2 => .inf (xor s1 s2)
  | .inf s1, .finite s2 m _ => if m = 0 then .nan else .inf (xor s1 s2)
  | .finite s1 m _, .inf s2 => if m = 0 then .nan else .inf (xor s1 s2)
  | .finite s1 m1 e1, .finite s2 m2 e2 =>
    round (xor s1 s2) (shl (m1 * m2) (e1 + e2)) (shl 1 (-(e1 + e2)))

/-- `a / b`. -/
def div : F64 → F64 → F64
  | .nan, _ => .nan
  | _, .nan => .nan
  | .inf _, .inf _ => .nan
  | .inf s1, .finite s2 _ _ => .inf (xor s1 s2)
  | .finite s1 _ _, .inf s2 => .finite (xor s1 s2) 0 (-1074)
  | .finite s1 m1 e1, .finite s2 m2 e2 =>
    if m2 = 0 then (if m1 = 0 then .nan else .inf (xor s1 s2))
    else round (xor s1 s2) (shl m1 (e1 - e2)) (shl m2 (e2 - e1))

/-- `a + b`.  An exact sum of zero is `+0`, unless both terms are negative (zeros). -/
def add : F64 → F64 → F64
  | .nan, _ => .nan
  | _, .nan => .nan
  | .inf s1, .inf s2 => if s1 = s2 then .inf s1 else .nan
  | .inf s1, .finite _ _ _ => .inf s1
  | .finite _ _ _, .inf s2 => .inf s2
  | .finite s1 m1 e1, .finite s2 m2 e2 =>
    let e := min e1 e2
    let a : Int := if s1 then -(shl m1 (e1 - e) : Int) else (shl m1 (e1 - e) : Int)
    let b : Int := if s2 then -(shl m2 (e2 - e) : Int) else (shl m2 (e2 - e) : Int)
    if a + b = 0 then .finite (s1 && s2) 0 (-1074)
    else round (decide (a + b < 0)) (shl (a + b).natAbs e) (shl 1 (-e))

/-- `-a`. -/
def neg : F64 → F64
  | .nan => .nan
  | .inf s => .inf (!s)
  | .finite s m e => .finite (!s) m e

/-- `a - b`. -/
def sub (a b : F64) : F64 := add a (neg b)

end F64

/-! ## `convert` with the arithmetic of `double`

The same tables and the same function, the values being binary64 numbers and the operations
those of `F64`.  A decimal literal of the source is the binary64 number nearest to it. -/

namespace IEEE

def length_factors : UMap F64 := [
  ("m", F64.dec 10 1),
  ("cm", F64.dec 1 2),
  ("mm", F64.dec 1 3),
  ("ft", F64.dec 3048 4),
  ("yd", F64.dec 9144 4),
  ("km", F64.dec 1000 0),
  ("mi", F64.dec 160934 2)
]

def mass_factors : UMap F64 := [
  ("kg", F64.dec 10 1),
  ("g", F64.dec 1 3),
  ("lb", F64.dec 453592 6),
  ("oz", F64.dec 283495 7)
]

def volume_factors : UMap F64 := [
  ("L", F64.dec 10 1),
  ("l", F64.dec 10 1),
  ("mL", F64.dec 1 3),
  ("ml", F64.dec 1 3),
  ("uL", F64.dec 1 6),
  ("ul", F64.dec 1 6),
  ("gal", F64.dec 378541 5),
  ("qt", F64.dec 946353 6),
  ("pt", F64.dec 473176 6),
  ("cup", F64.dec 24 2),
  ("floz", F64.dec 295735 7),
  ("tbsp", F64.dec 147868 7),
  ("tsp", F64.dec 492892 8),
  ("m3", F64.dec 10000 1),
  ("cm3", F64.dec 1 3),
  ("cc", F64.dec 1 3),
  ("in3", F64.dec 163871 7),
  ("ft3", F64.dec 283168 4)
]

structure TempUnit where
  to_celsius : F64 → F64
  from_celsius : F64 → F64

def temp_units : UMap TempUnit := [
  ("C", ⟨fun c => c, fun c => c⟩),
  ("F", ⟨fun f => F64.div (F64.mul (F64.sub f (F64.dec 320 1)) (F64.dec 50 1)) (F64.dec 90 1),
         fun c => F64.add (F64.div (F64.mul c (F64.dec 90 1)) (F64.dec 50 1)) (F64.dec 320 1)⟩),
  ("K", ⟨fun k => F64.sub k (F64.dec 27315 2), fun c => F64.add c (F64.dec 27315 2)⟩)
]

/-- `temp_units[k]` followed by a call of one of its functions (see `Convert.temp_call`). -/
def temp_call (k : String) (sel : TempUnit → F64 → F64) (x : F64) : Except Exn F64 :=
  match find temp_units k with
  | some u => .ok (sel u x)
  | none => .error .bad_function_call

def convert (from_unit to_unit : String) (value : F64) : Except Exn F64 :=
  let from_is_length : Bool := count length_factors from_unit > 0
  let to_is_length : Bool := count length_factors to_unit > 0
  let from_is_mass : Bool := count mass_factors from_unit > 0
  let to_is_mass : Bool := count mass_factors to_unit > 0
  let from_is_volume : Bool := count volume_factors from_unit > 0
  let to_is_volume : Bool := count volume_factors to_unit > 0
  let from_is_temp : Bool := count temp_units from_unit > 0
  let to_is_temp : Bool := count temp_units to_unit > 0
  if count length_factors from_unit > 0 ∧ count length_factors to_unit > 0 then
    match map_at length_factors from_unit, map_at length_factors to_unit with
    | .ok from_factor, .ok to_factor =>
      let value_in_meters := F64.mul value from_factor
      let result := F64.div value_in_meters to_factor
      .ok result
    | .error e, _ => .error e
    | _, .error e => .error e
  else if count mass_factors from_unit > 0 ∧ count mass_factors to_unit > 0 then
    match map_at mass_factors from_unit, map_at mass_factors to_unit with
    | .ok from_factor, .ok to_factor =>
      let value_in_kilograms := F64.mul value from_factor
      let result := F64.div value_in_kilograms to_factor
      .ok result
    | .error e, _ => .error e
    | _, .error e => .error e
  else if count volume_factors from_unit > 0 ∧ count volume_factors to_unit > 0 then
    match map_at volume_factors from_unit, map_at volume_factors to_unit with
    | .ok from_factor, .ok to_factor =>
      let value_in_liters := F64.mul value from_factor
      let result := F64.div value_in_liters to_factor
      .ok result
    | .error e, _ => .error e
    | _, .error e => .error e
  else if count temp_units from_unit > 0 ∧ count temp_units to_unit > 0 then
    match temp_call from_unit TempUnit.to_celsius value with
    | .ok temp_in_celcius => temp_call to_unit TempUnit.from_celsius temp_in_celcius
    | .error e => .error e
  else if (from_is_length && !to_is_length) ||
      (from_is_mass && !to_is_mass) ||
      (from_is_volume && !to_is_volume) ||
      (from_is_temp && !to_is_temp) then
    .error (.runtime_error "Incompatible unit types (eg., length vs. mass)")
  else
    .error (.runtime_error ("Unknown unit(s): from='" ++ from_unit ++ "', to='" ++ to_unit ++ "'"))

end IEEE

/-! ## Lemmas on the maps -/

theorem count_pos_iff {V : Type} (m : UMap V) (k : String) :
    count m k > 0 ↔ ∃ v, find m k = some v := by
  unfold count
  cases h : find m k <;> simp

theorem count_pos_of_find {V : Type} {m : UMap V} {k : String} {v : V}
    (h : find m k = some v) : count m k > 0 :=
  (count_pos_iff m k).2 ⟨v, h⟩

theorem find_mem {V : Type} (m : UMap V) (k : String) (v : V)
    (h : find m k = some v) : (k, v) ∈ m := by
  unfold find at h
  induction m with
  | nil => simp [List.lookup] at h
  | cons p tl ih =>
    obtain ⟨k2, v2⟩ := p
    rw [List.lookup_cons] at h
    by_cases hk : k = k2
    · subst hk
      simp at h
      subst h
      exact List.mem_cons_self _ _
    · have hb : (k == k2) = false := by simpa using hk
      rw [hb] at h
      exact List.mem_cons_of_mem _ (ih h)

theorem isKey_mem_keys (c : Category) (k : String) (h : isKey c k = true) : k ∈ keys c := by
  cases c <;>
  · have h1 := (count_pos_iff _ _).1 (by simpa [isKey] using h)
    obtain ⟨v, hv⟩ := h1
    exact List.mem_map.2 ⟨(k, v), find_mem _ _ _ hv, rfl⟩

/-- No key of one table is a key of another. -/
theorem keys_disjoint (c d : Category) (hcd : c ≠ d) : ∀ k ∈ keys c, isKey d k = false := by
  cases c <;> cases d <;> first | exact absurd rfl hcd | decide

theorem isKey_unique (c d : Category) (k : String) (hc : isKey c k = true)
    (hd : isKey d k = true) : c = d := by
  by_contra hne
  have := keys_disjoint c d hne k (isKey_mem_keys c k hc)
  rw [hd] at this
  exact absurd this (by decide)

theorem isKey_eq_decide (c : Category) (k : String) (hc : isKey c k = true) (e : Category) :
    isKey e k = decide (e = c) := by
  by_cases h : e = c
  · subst h; simpa using hc
  · simpa [h] using keys_disjoint c e (fun h2 => h h2.symm) k (isKey_mem_keys c k hc)

theorem convert_length (a b : String) (fa fb v : ℚ) (ha : find length_factors a = some fa)
    (hb : find length_factors b = some fb) : convert a b v = .ok (v * fa / fb) := by
  simp [convert, count_pos_of_find ha, count_pos_of_find hb, map_at, ha, hb]

theorem convert_mass (a b : String) (fa fb v : ℚ) (ha : find mass_factors a = some fa)
    (hb : find mass_factors b = some fb) : convert a b v = .ok (v * fa / fb) := by
  have h1 := isKey_eq_decide .Mass a (by simpa [isKey] using count_pos_of_find ha) .Length
  simp only [isKey] at h1
  simp at h1
  simp [convert, h1, count_pos_of_find ha, count_pos_of_find hb, map_at, ha, hb]

theorem convert_volume (a b : String) (fa fb v : ℚ) (ha : find volume_factors a = some fa)
    (hb : find volume_factors b = some fb) : convert a b v = .ok (v * fa / fb) := by
  have hk : isKey .Volume a = true := by simpa [isKey] using count_pos_of_find ha
  have h1 := isKey_eq_decide .Volume a hk .Length
  have h2 := isKey_eq_decide .Volume a hk .Mass
  simp only [isKey] at h1 h2
  simp at h1 h2
  simp [convert, h1, h2, count_pos_of_find ha, count_pos_of_find hb, map_at, ha, hb]

theorem convert_temp (a b : String) (ua ub : TempUnit) (v : ℚ)
    (ha : find temp_units a = some ua) (hb : find temp_units b = some ub) :
    convert a b v = .ok (ub.from_celsius (ua.to_celsius v)) := by
  have hk : isKey .Temperature a = true := by simpa [isKey] using count_pos_of_find ha
  have h1 := isKey_eq_decide .Temperature a hk .Length
  have h2 := isKey_eq_decide .Temperature a hk .Mass
  have h3 := isKey_eq_decide .Temperature a hk .Volume
  simp only [isKey] at h1 h2 h3
  simp at h1 h2 h3
  simp [convert, h1, h2, h3, count_pos_of_find ha, count_pos_of_find hb, temp_call, ha, hb]

theorem isKey_find_linear (c : Category) (k : String) (h : isKey c k = true) :
    (c = .Length ∧ ∃ f, find length_factors k = some f) ∨
    (c = .Mass ∧ ∃ f, find mass_factors k = some f) ∨
    (c = .Volume ∧ ∃ f, find volume_factors k = some f) ∨
    (c = .Temperature ∧ ∃ u, find temp_units k = some u) := by
  cases c <;> simpa [isKey, count_pos_iff] using h

/-- Two units of one table: `convert` returns. -/
theorem convert_same_ok (c : Category) (a b : String) (v : ℚ) (ha : isKey c a = true)
    (hb : isKey c b = true) : ∃ r, convert a b v = .ok r := by
  rcases isKey_find_linear c a ha with ⟨rfl, fa, hfa⟩ | ⟨rfl, fa, hfa⟩ | ⟨rfl, fa, hfa⟩ | ⟨rfl, fa, hfa⟩ <;>
  rcases isKey_find_linear _ b hb with ⟨h, fb, hfb⟩ | ⟨h, fb, hfb⟩ | ⟨h, fb, hfb⟩ | ⟨h, fb, hfb⟩ <;>
  first
  | exact absurd h (by decide)
  | exact ⟨_, convert_length a b fa fb v hfa hfb⟩
  | exact ⟨_, convert_mass a b fa fb v hfa hfb⟩
  | exact ⟨_, convert_volume a b fa fb v hfa hfb⟩
  | exact ⟨_, convert_temp a b fa fb v hfa hfb⟩

/-- What `convert` does once the flags of both units are known to be those of a unit of
category `c` and of a unit that is not of category `c`. -/
theorem convert_from_key (c : Category) (a b : String) (v : ℚ) (ha : isKey c a = true)
    (hb : isKey c b = false) : convert a b v = .error IncompatibleUnits := by
  have h1 := isKey_eq_decide c a ha .Length
  have h2 := isKey_eq_decide c a ha .Mass
  have h3 := isKey_eq_decide c a ha .Volume
  have h4 := isKey_eq_decide c a ha .Temperature
  cases c <;> simp only [isKey] at h1 h2 h3 h4 hb <;> simp at h1 h2 h3 h4 hb <;>
    simp [convert, h1, h2, h3, h4, hb, IncompatibleUnits]

theorem convert_from_unknown (a b : String) (v : ℚ) (ha : ∀ c, isKey c a = false) :
    convert a b v = .error (UnknownUnit a b) := by
  have h1 := ha .Length
  have h2 := ha .Mass
  have h3 := ha .Volume
  have h4 := ha .Temperature
  simp only [isKey] at h1 h2 h3 h4
  simp at h1 h2 h3 h4
  simp [convert, h1, h2, h3, h4, UnknownUnit]

/-- The entries of `temp_units` carry the transforms the specification words. -/
theorem find_temp_spec (k : String) (hk : k ∈ ["C", "F", "K"]) :
    ∃ u, find temp_units k = some u ∧ (∀ x, u.to_celsius x = spec_to_celsius k x) ∧
      (∀ x, u.from_celsius x = spec_from_celsius k x) := by
  simp only [List.mem_cons, List.mem_nil_iff, or_false] at hk
  rcases hk with rfl | rfl | rfl
  · exact ⟨_, rfl, fun x => by simp [spec_to_celsius], fun x => by simp [spec_from_celsius]⟩
  · exact ⟨_, rfl, fun x => by simp [spec_to_celsius]; norm_num,
      fun x => by simp [spec_from_celsius]; norm_num⟩
  · exact ⟨_, rfl, fun x => by simp [spec_to_celsius], fun x => by simp [spec_from_celsius]⟩

/-- In exact arithmetic the two transforms of a temperature unit are inverse to each other. -/
theorem spec_from_to_celsius (k : String) (x : ℚ) :
    spec_from_celsius k (spec_to_celsius k x) = x := by
  unfold spec_from_celsius spec_to_celsius
  split_ifs <;> ring

/-- In exact arithmetic the two transforms of a temperature unit are inverse to each other,
in the other order. -/
theorem spec_to_from_celsius (k : String) (x : ℚ) :
    spec_to_celsius k (spec_from_celsius k x) = x := by
  unfold spec_from_celsius spec_to_celsius
  split_ifs <;> ring

/-- Every factor of the three linear tables is strictly positive. -/
theorem factors_pos :
    (∀ p ∈ length_factors, 0 < p.2) ∧ (∀ p ∈ mass_factors, 0 < p.2) ∧
      (∀ p ∈ volume_factors, 0 < p.2) := by
  refine ⟨?_, ?_, ?_⟩
  · norm_num [length_factors]
  · norm_num [mass_factors]
  · norm_num [volume_factors]

theorem factor_ne_zero (t : UMap ℚ)
    (ht : t ∈ [length_factors, mass_factors, volume_factors]) (k : String) (f : ℚ)
    (h : find t k = some f) : f ≠ 0 := by
  have hm := find_mem t k f h
  simp only [List.mem_cons, List.mem_nil_iff, or_false] at ht
  rcases ht with rfl | rfl | rfl
  · exact ne_of_gt (factors_pos.1 _ hm)
  · exact ne_of_gt (factors_pos.2.1 _ hm)
  · exact ne_of_gt (factors_pos.2.2 _ hm)

/-- In exact rational arithmetic, for two units of one table, converting there and back
returns the value one started from. -/
theorem convert_round_trip (c : Category) (a b : String) (v : ℚ) (ha : isKey c a = true)
    (hb : isKey c b = true) : ∃ r, convert a b v = .ok r ∧ convert b a r = .ok v := by
  rcases isKey_find_linear c a ha with ⟨rfl, fa, hfa⟩ | ⟨rfl, fa, hfa⟩ | ⟨rfl, fa, hfa⟩ | ⟨rfl, fa, hfa⟩ <;>
  rcases isKey_find_linear _ b hb with ⟨h, fb, hfb⟩ | ⟨h, fb, hfb⟩ | ⟨h, fb, hfb⟩ | ⟨h, fb, hfb⟩ <;>
  first
  | exact absurd h (by decide)
  | refine ⟨_, convert_length a b fa fb v hfa hfb, ?_⟩
    rw [convert_length b a fb fa _ hfb hfa]
    have h1 := factor_ne_zero _ (by simp) a fa hfa
    have h2 := factor_ne_zero _ (by simp) b fb hfb
    congr 1
    field_simp
  | refine ⟨_, convert_mass a b fa fb v hfa hfb, ?_⟩
    rw [convert_mass b a fb fa _ hfb hfa]
    have h1 := factor_ne_zero _ (by simp) a fa hfa
    have h2 := factor_ne_zero _ (by simp) b fb hfb
    congr 1
    field_simp
  | refine ⟨_, convert_volume a b fa fb v hfa hfb, ?_⟩
    rw [convert_volume b a fb fa _ hfb hfa]
    have h1 := factor_ne_zero _ (by simp) a fa hfa
    have h2 := factor_ne_zero _ (by simp) b fb hfb
    congr 1
    field_simp
  | refine ⟨_, convert_temp a b fa fb v hfa hfb, ?_⟩
    rw [convert_temp b a fb fa _ hfb hfa]
    have ka : a ∈ ["C", "F", "K"] := isKey_mem_keys .Temperature a ha
    have kb : b ∈ ["C", "F", "K"] := isKey_mem_keys .Temperature b hb
    obtain ⟨ua, hua, hta, hfa2⟩ := find_temp_spec a ka
    obtain ⟨ub, hub, htb, hfb2⟩ := find_temp_spec b kb
    rw [hfa] at hua
    rw [hfb] at hub
    cases hua
    cases hub
    rw [hta, hfb2, htb, hfa2, spec_to_from_celsius, spec_from_to_celsius]

theorem tolower_idem (ch : Char) : tolower (tolower ch) = tolower ch := by
  unfold tolower
  by_cases h : 65 ≤ ch.toNat ∧ ch.toNat ≤ 90
  · rw [if_pos h]
    obtain ⟨h1, h2⟩ := h
    generalize ch.toNat = n at h1 h2
    interval_cases n <;> decide
  · rw [if_neg h, if_neg h]

theorem to_lower_idem (s : String) : to_lower (to_lower s) = to_lower s := by
  unfold to_lower
  congr 1
  rw [List.map_map]
  exact List.map_congr_left (fun ch _ => tolower_idem ch)

/-- Every alias target is left alone by `normalize_unit`. -/
theorem alias_targets_fixed : ∀ p ∈ unit_aliases, normalize_unit p.2 = p.2 := by
  decide

/-! ## Properties of the specification -/

/-- C1 (category closure): two units that are keys of the same table convert to a number,
for every value, without any exception; two units that are keys of two different tables
fail with the incompatible-units error, as `convert("m", "kg", 1.0)` does. -/
theorem C1_category_closure :
    (∀ (a b : String) (v : ℚ) (c : Category),
      isKey c a = true → isKey c b = true → ∃ r, convert a b v = .ok r) ∧
    (∀ (a b : String) (v : ℚ) (c d : Category),
      c ≠ d → isKey c a = true → isKey d b = true →
        convert a b v = .error (.runtime_error "Incompatible unit types (eg., length vs. mass)")) ∧
    convert "m" "kg" 1.0 =
      .error (.runtime_error "Incompatible unit types (eg., length vs. mass)") := by
  refine ⟨fun a b v c ha hb => convert_same_ok c a b v ha hb, ?_, by decide⟩
  intro a b v c d hcd ha hb
  have hb2 : isKey c b = false := by
    have := isKey_eq_decide d b hb c
    simpa [hcd] using this
  exact convert_from_key c a b v ha hb2

theorem C1_category_closure_witness :
    (∃ r, convert "ft" "mi" 3 = .ok r) ∧
    convert "lb" "K" 2 =
      .error (.runtime_error "Incompatible unit types (eg., length vs. mass)") :=
  ⟨C1_category_closure.1 "ft" "mi" 3 .Length (by decide) (by decide),
   C1_category_closure.2.1 "lb" "K" 2 .Mass .Temperature (by decide) (by decide) (by decide)⟩

/-- C2 (linear formula): for two keys of one of the three factor tables, `convert` returns
`value * factor(from_unit) / factor(to_unit)` with the factors of that table; one pound is
`0.453592` kilograms. -/
theorem C2_linear_formula :
    (∀ t : UMap ℚ, t ∈ [length_factors, mass_factors, volume_factors] →
      ∀ (from_unit to_unit : String) (from_factor to_factor value : ℚ),
        find t from_unit = some from_factor → find t to_unit = some to_factor →
          convert from_unit to_unit value = .ok ((value * from_factor) / to_factor)) ∧
    convert "lb" "kg" 1.0 = .ok 0.453592 := by
  constructor
  · intro t ht a b fa fb v ha hb
    simp only [List.mem_cons, List.mem_nil_iff, or_false] at ht
    rcases ht with rfl | rfl | rfl
    · exact convert_length a b fa fb v ha hb
    · exact convert_mass a b fa fb v ha hb
    · exact convert_volume a b fa fb v ha hb
  · rw [convert_mass "lb" "kg" 0.453592 1.0 1.0 rfl rfl]
    norm_num

theorem C2_linear_formula_witness :
    convert "oz" "g" 2 = .ok ((2 * 0.0283495) / 0.001) :=
  C2_linear_formula.1 mass_factors (by simp) "oz" "g" 0.0283495 0.001 2 rfl rfl

/-- C3 (temperature formula): for `from_unit` and `to_unit` among `C`, `F`, `K` (the keys of
`temp_units`), `convert` returns `from_celsius[to_unit](to_celsius[from_unit](value))` with
the transforms of the specification. -/
theorem C3_temperature_formula :
    keys .Temperature = ["C", "F", "K"] ∧
    ∀ (from_unit to_unit : String) (value : ℚ),
      from_unit ∈ ["C", "F", "K"] → to_unit ∈ ["C", "F", "K"] →
        convert from_unit to_unit value =
          .ok (spec_from_celsius to_unit (spec_to_celsius from_unit value)) := by
  refine ⟨by decide, ?_⟩
  intro a b v ha hb
  obtain ⟨ua, hua, hta, -⟩ := find_temp_spec a ha
  obtain ⟨ub, hub, -, hfb⟩ := find_temp_spec b hb
  rw [convert_temp a b ua ub v hua hub, hta, hfb]

theorem C3_temperature_formula_witness :
    convert "F" "K" 212 = .ok (spec_from_celsius "K" (spec_to_celsius "F" 212)) :=
  C3_temperature_formula.2 "F" "K" 212 (by decide) (by decide)

/-- C6 (alias idempotence): normalising twice is normalising once, for every input string;
every alias target, lower-cased, is either no alias or an alias of itself. -/
theorem C6_alias_idempotence :
    (∀ x : String, normalize_unit (normalize_unit x) = normalize_unit x) ∧
    (∀ p ∈ unit_aliases, find unit_aliases (to_lower p.2) = none ∨
      find unit_aliases (to_lower p.2) = some p.2) := by
  refine ⟨fun x => ?_, by decide⟩
  cases h : find unit_aliases (to_lower x) with
  | none =>
    have hx : normalize_unit x = x := by simp [normalize_unit, h]
    rw [hx, hx]
  | some t =>
    have hx : normalize_unit x = t := by simp [normalize_unit, h]
    rw [hx]
    exact alias_targets_fixed (to_lower x, t) (find_mem _ _ _ h)

theorem C6_alias_idempotence_witness :
    normalize_unit (normalize_unit "Cups") = normalize_unit "Cups" ∧
    (find unit_aliases (to_lower "C") = none ∨ find unit_aliases (to_lower "C") = some "C") :=
  ⟨C6_alias_idempotence.1 "Cups", C6_alias_idempotence.2 ("celsius", "C") (by decide)⟩

/-- C7 (definition of normalize_unit): when the lower-cased input is a key of the alias
table the result is the canonical key mapped to it; otherwise the result is the input itself
with its original casing (`"ML"` stays `"ML"`, it does not become `"ml"`).  The function is
total: it returns a string on every input. -/
theorem C7_normalize_unit_definition :
    (∀ u canonical : String, find unit_aliases (to_lower u) = some canonical →
      normalize_unit u = canonical) ∧
    (∀ u : String, find unit_aliases (to_lower u) = none → normalize_unit u = u) ∧
    (∀ u : String, ∃ r : String, normalize_unit u = r) ∧
    normalize_unit "Litres" = "L" ∧ to_lower "ML" = "ml" ∧ normalize_unit "ML" = "ML" := by
  refine ⟨fun u c h => ?_, fun u h => ?_, fun u => ⟨_, rfl⟩, by decide, by decide, by decide⟩
  · simp [normalize_unit, h]
  · simp [normalize_unit, h]

theorem C7_normalize_unit_definition_witness :
    normalize_unit "FahrenHeit" = "F" ∧ normalize_unit "Furlong" = "Furlong" :=
  ⟨C7_normalize_unit_definition.1 "FahrenHeit" "F" (by decide),
   C7_normalize_unit_definition.2.1 "Furlong" (by decide)⟩

/-- C8 (case-insensitivity of aliases): when the lower-cased form of `x` is a key of the
alias table, `normalize_unit x` is `normalize_unit (to_lower x)`; `"METERS"` and `"meters"`
both normalise to `"m"`. -/
theorem C8_alias_case_insensitive :
    (∀ x : String, (find unit_aliases (to_lower x)).isSome = true →
      normalize_unit x = normalize_unit (to_lower x)) ∧
    normalize_unit "METERS" = normalize_unit "meters" ∧ normalize_unit "meters" = "m" := by
  refine ⟨fun x hx => ?_, by decide, by decide⟩
  obtain ⟨t, ht⟩ := Option.isSome_iff_exists.1 hx
  simp [normalize_unit, to_lower_idem, ht]

theorem C8_alias_case_insensitive_witness :
    normalize_unit "KiloGrams" = normalize_unit (to_lower "KiloGrams") :=
  C8_alias_case_insensitive.1 "KiloGrams" (by decide)

/-- C9 (unknown unit): when `from_unit` is a key of none of the four tables, `convert` fails
with the unknown-unit error whose message names both identifiers, whatever `to_unit` and the
value are: so it does when `to_unit` is recognised (`convert("xyz", "m", 1.0)`) and when
neither unit is. -/
theorem C9_unknown_unit :
    (∀ (from_unit to_unit : String) (value : ℚ), (∀ c, isKey c from_unit = false) →
      convert from_unit to_unit value =
        .error (.runtime_error
          ("Unknown unit(s): from='" ++ from_unit ++ "', to='" ++ to_unit ++ "'"))) ∧
    convert "xyz" "m" 1.0 = .error (.runtime_error "Unknown unit(s): from='xyz', to='m'") ∧
    convert "xyz" "abc" 1.0 =
      .error (.runtime_error "Unknown unit(s): from='xyz', to='abc'") := by
  refine ⟨fun a b v h => convert_from_unknown a b v h, by decide, by decide⟩

theorem C9_unknown_unit_witness :
    convert "furlong" "mi" 8 =
      .error (.runtime_error ("Unknown unit(s): from='" ++ "furlong" ++ "', to='" ++ "mi" ++ "'")) :=
  C9_unknown_unit.1 "furlong" "mi" 8 (fun c => by cases c <;> decide)

/-- C10 as stated fails: no table contains both `"xyz"` and `"m"`, and `"m"` is a key of
`length_factors`, yet `convert("xyz", "m", 1.0)` fails with the unknown-unit error and not
with the incompatible-units one. -/
theorem C10_counterexample :
    isKey .Length "m" = true ∧
    isKey .Length "xyz" = false ∧ isKey .Mass "xyz" = false ∧
    isKey .Volume "xyz" = false ∧ isKey .Temperature "xyz" = false ∧
    convert "xyz" "m" 1.0 = .error (.runtime_error "Unknown unit(s): from='xyz', to='m'") ∧
    convert "xyz" "m" 1.0 ≠
      .error (.runtime_error "Incompatible unit types (eg., length vs. mass)") := by
  decide

/-- C10 amended: when no table contains both units and `from_unit` is a key of some table,
`convert` fails with the incompatible-units error. -/
theorem C10_incompatible_from_recognised (from_unit to_unit : String) (value : ℚ)
    (hno : ∀ c, ¬ (isKey c from_unit = true ∧ isKey c to_unit = true))
    (hfrom : ∃ c, isKey c from_unit = true) :
    convert from_unit to_unit value =
      .error (.runtime_error "Incompatible unit types (eg., length vs. mass)") := by
  obtain ⟨c, hc⟩ := hfrom
  have hb : isKey c to_unit = false := by
    cases h : isKey c to_unit
    · rfl
    · exact absurd ⟨hc, h⟩ (hno c)
  exact convert_from_key c from_unit to_unit value hc hb

theorem C10_incompatible_from_recognised_witness :
    convert "gal" "oz" 1 =
      .error (.runtime_error "Incompatible unit types (eg., length vs. mass)") :=
  C10_incompatible_from_recognised "gal" "oz" 1 (fun c => by cases c <;> decide)
    ⟨.Volume, by decide⟩

/-! ## The failure kinds and the registry invariants -/

/-- The two messages differ in their first letter. -/
theorem UnknownUnit_ne_IncompatibleUnits (x y : String) : UnknownUnit x y ≠ IncompatibleUnits := by
  intro h
  have h2 := congrArg (fun e => match e with
    | Exn.runtime_error w => w.data.head?
    | _ => none) h
  simp [UnknownUnit, IncompatibleUnits] at h2

/-- The three outcomes of `convert`, by the tables `from_unit` and `to_unit` are keys of. -/
theorem convert_cases (a b : String) (v : ℚ) :
    (∃ c r, isKey c a = true ∧ isKey c b = true ∧ convert a b v = .ok r) ∨
    (∃ c, isKey c a = true ∧ isKey c b = false ∧ convert a b v = .error IncompatibleUnits) ∨
    ((∀ c, isKey c a = false) ∧ convert a b v = .error (UnknownUnit a b)) := by
  by_cases h : ∃ c, isKey c a = true
  · obtain ⟨c, hc⟩ := h
    cases hb : isKey c b
    · exact Or.inr (Or.inl ⟨c, hc, hb, convert_from_key c a b v hc hb⟩)
    · obtain ⟨r, hr⟩ := convert_same_ok c a b v hc hb
      exact Or.inl ⟨c, r, hc, hb, hr⟩
  · have h2 : ∀ c, isKey c a = false := by
      intro c
      cases hc : isKey c a
      · rfl
      · exact absurd ⟨c, hc⟩ h
    exact Or.inr (Or.inr ⟨h2, convert_from_unknown a b v h2⟩)

/-- C11 as stated fails: `convert("m", "xyz", 1.0)` fails with the incompatible-units error
although `"xyz"` is a key of none of the four tables. -/
theorem C11_counterexample :
    convert "m" "xyz" 1.0 =
      .error (.runtime_error "Incompatible unit types (eg., length vs. mass)") ∧
    isKey .Length "xyz" = false ∧ isKey .Mass "xyz" = false ∧
    isKey .Volume "xyz" = false ∧ isKey .Temperature "xyz" = false := by
  decide

/-- C11 amended: when `convert` fails with the incompatible-units error, `from_unit` is a key
of some table and `to_unit` is not a key of that table (it is a key of another table or of
none). -/
theorem C11_incompatible_means_from_known (from_unit to_unit : String) (value : ℚ)
    (h : convert from_unit to_unit value =
      .error (.runtime_error "Incompatible unit types (eg., length vs. mass)")) :
    ∃ c, isKey c from_unit = true ∧ isKey c to_unit = false := by
  rcases convert_cases from_unit to_unit value with ⟨c, r, -, -, hr⟩ | ⟨c, ha, hb, -⟩ | ⟨-, hu⟩
  · rw [hr] at h
    cases h
  · exact ⟨c, ha, hb⟩
  · rw [hu] at h
    exact absurd (Except.error.inj h) (UnknownUnit_ne_IncompatibleUnits _ _)

theorem C11_incompatible_means_from_known_witness :
    ∃ c, isKey c "K" = true ∧ isKey c "furlong" = false :=
  C11_incompatible_means_from_known "K" "furlong" 3 (by decide)

/-- C12 (table disjointness): no string is a key of two of the four tables, so a unit has at
most one category, and at most one of the four branches of `convert` can match a pair of
units. -/
theorem C12_tables_disjoint :
    (∀ (u : String) (c d : Category), isKey c u = true → c ≠ d → isKey d u = false) ∧
    (∀ (u : String) (c d : Category), isKey c u = true → isKey d u = true → c = d) ∧
    (∀ (a b : String) (c d : Category), isKey c a = true ∧ isKey c b = true →
      isKey d a = true ∧ isKey d b = true → c = d) ∧
    (keys .Length ++ keys .Mass ++ keys .Volume ++ keys .Temperature).Nodup := by
  refine ⟨?_, fun u c d hc hd => isKey_unique c d u hc hd, ?_, by decide⟩
  · intro u c d hc hcd
    exact keys_disjoint c d hcd u (isKey_mem_keys c u hc)
  · intro a b c d hc hd
    exact isKey_unique c d a hc.1 hd.1

theorem C12_tables_disjoint_witness : isKey .Volume "oz" = false :=
  C12_tables_disjoint.1 "oz" .Mass .Volume (by decide) (by decide)

/-- Every alias target is a key of one of the four tables. -/
theorem alias_targets_keys : ∀ p ∈ unit_aliases,
    (isKey .Length p.2 || isKey .Mass p.2 || isKey .Volume p.2 || isKey .Temperature p.2) =
      true := by
  decide

theorem alias_target_recognised (p : String × String) (hp : p ∈ unit_aliases) :
    ∃ c, isKey c p.2 = true := by
  have h := alias_targets_keys p hp
  simp only [Bool.or_eq_true] at h
  rcases h with ((h | h) | h) | h
  · exact ⟨_, h⟩
  · exact ⟨_, h⟩
  · exact ⟨_, h⟩
  · exact ⟨_, h⟩

/-- C13 (every alias resolves to a real unit): each target of the alias table is a key of
exactly one of the four tables, so the normal form of any spelling of an alias is a unit that
`convert` recognises; `"Kilograms"` normalises to `"kg"` and converting 5 kg to it gives 5. -/
theorem C13_alias_targets_recognised :
    (∀ p ∈ unit_aliases, ∃ c, isKey c p.2 = true ∧ ∀ d, isKey d p.2 = true → d = c) ∧
    (∀ x : String, (find unit_aliases (to_lower x)).isSome = true →
      ∃ c, isKey c (normalize_unit x) = true) ∧
    normalize_unit "Kilograms" = "kg" ∧
    convert "kg" (normalize_unit "Kilograms") 5.0 = .ok 5.0 := by
  refine ⟨?_, ?_, by decide, ?_⟩
  · intro p hp
    obtain ⟨c, hc⟩ := alias_target_recognised p hp
    exact ⟨c, hc, fun d hd => isKey_unique d c p.2 hd hc⟩
  · intro x hx
    obtain ⟨t, ht⟩ := Option.isSome_iff_exists.1 hx
    have hn : normalize_unit x = t := by simp [normalize_unit, ht]
    rw [hn]
    exact alias_target_recognised (to_lower x, t) (find_mem _ _ _ ht)
  · rw [show normalize_unit "Kilograms" = "kg" by decide,
      convert_mass "kg" "kg" 1.0 1.0 5.0 rfl rfl]
    norm_num

theorem C13_alias_targets_recognised_witness :
    (∃ c, isKey c "tbsp" = true ∧ ∀ d, isKey d "tbsp" = true → d = c) ∧
    ∃ c, isKey c (normalize_unit "Fahrenheit") = true :=
  ⟨C13_alias_targets_recognised.1 ("tablespoons", "tbsp") (by decide),
   C13_alias_targets_recognised.2.1 "Fahrenheit" (by decide)⟩

/-- C14 as stated fails: `convert("km", "mi", 1.0)` is `1000 / 1609.34 = 0.6213727...`, which
is further than `0.0000005` from `0.621371`. -/
theorem C14_counterexample :
    ∃ r, convert "km" "mi" 1.0 = .ok r ∧ ¬ (|r - 0.621371| ≤ 0.0000005) := by
  refine ⟨_, convert_length "km" "mi" 1000 1609.34 1.0 rfl rfl, ?_⟩
  rw [abs_le]
  norm_num

/-- C14 amended: `convert("km", "mi", 1.0)` is `1.0 * 1000 / 1609.34` from the length table,
which is `0.621373` to six decimal places and agrees with `0.621371` to five
(within `0.000005`). -/
theorem C14_km_to_mi :
    ∃ r, convert "km" "mi" 1.0 = .ok r ∧ r = 1.0 * 1000 / 1609.34 ∧
      |r - 0.621373| ≤ 0.0000005 ∧ |r - 0.621371| ≤ 0.000005 := by
  refine ⟨_, convert_length "km" "mi" 1000 1609.34 1.0 rfl rfl, rfl, ?_, ?_⟩
  · rw [abs_le]
    norm_num
  · rw [abs_le]
    norm_num

/-- C15 (Celsius/Fahrenheit fixed points): `convert("C", "F", 0.0)` is exactly `32.0` and
`convert("F", "C", 212.0)` is exactly `100.0`. -/
theorem C15_celsius_fahrenheit_points :
    convert "C" "F" 0.0 = .ok 32.0 ∧ convert "F" "C" 212.0 = .ok 100.0 := by
  constructor
  · rw [convert_temp "C" "F" _ _ 0.0 rfl rfl]
    norm_num
  · rw [convert_temp "F" "C" _ _ 212.0 rfl rfl]
    norm_num

/-- C16 (no division by zero): every factor stored in the three linear tables is strictly
positive, so whenever both units are keys of one linear table the divisor `at(to_unit)` is
found, is non-zero, and `convert` returns the quotient. -/
theorem C16_no_division_by_zero :
    (∀ t ∈ [length_factors, mass_factors, volume_factors], ∀ p ∈ t, 0 < p.2) ∧
    (∀ t ∈ [length_factors, mass_factors, volume_factors],
      ∀ (from_unit to_unit : String) (value : ℚ),
        count t from_unit > 0 → count t to_unit > 0 →
          ∃ from_factor to_factor, map_at t from_unit = .ok from_factor ∧
            map_at t to_unit = .ok to_factor ∧ 0 < to_factor ∧ to_factor ≠ 0 ∧
            convert from_unit to_unit value = .ok (value * from_factor / to_factor)) := by
  constructor
  · intro t ht p hp
    simp only [List.mem_cons, List.mem_nil_iff, or_false] at ht
    rcases ht with rfl | rfl | rfl
    · exact factors_pos.1 p hp
    · exact factors_pos.2.1 p hp
    · exact factors_pos.2.2 p hp
  · intro t ht a b v ha hb
    obtain ⟨fa, hfa⟩ := (count_pos_iff t a).1 ha
    obtain ⟨fb, hfb⟩ := (count_pos_iff t b).1 hb
    have hne := factor_ne_zero t ht b fb hfb
    have hmem := find_mem t b fb hfb
    refine ⟨fa, fb, by simp [map_at, hfa], by simp [map_at, hfb], ?_, hne, ?_⟩
    · simp only [List.mem_cons, List.mem_nil_iff, or_false] at ht
      rcases ht with rfl | rfl | rfl
      · exact factors_pos.1 _ hmem
      · exact factors_pos.2.1 _ hmem
      · exact factors_pos.2.2 _ hmem
    · simp only [List.mem_cons, List.mem_nil_iff, or_false] at ht
      rcases ht with rfl | rfl | rfl
      · exact convert_length a b fa fb v hfa hfb
      · exact convert_mass a b fa fb v hfa hfb
      · exact convert_volume a b fa fb v hfa hfb

theorem C16_no_division_by_zero_witness :
    (0 : ℚ) < (("uL", 0.000001) : String × ℚ).2 ∧
    ∃ from_factor to_factor, map_at volume_factors "gal" = .ok from_factor ∧
      map_at volume_factors "uL" = .ok to_factor ∧ 0 < to_factor ∧ to_factor ≠ 0 ∧
      convert "gal" "uL" 2 = .ok (2 * from_factor / to_factor) :=
  ⟨C16_no_division_by_zero.1 volume_factors (by simp) ("uL", 0.000001) (by simp [volume_factors]),
   C16_no_division_by_zero.2 volume_factors (by simp) "gal" "uL" 2 (by decide) (by decide)⟩

/-- Every key of the four tables is left alone by `normalize_unit`. -/
theorem keys_normalize_fixed (c : Category) : ∀ k ∈ keys c, normalize_unit k = k := by
  cases c <;> decide

/-- C18 (normalisation never rewrites a canonical key): for every key `u` of any of the four
tables, the case-sensitive volume keys and the temperature keys included,
`normalize_unit u = u`. -/
theorem C18_normalize_keeps_keys :
    (∀ (c : Category) (u : String), isKey c u = true → normalize_unit u = u) ∧
    normalize_unit "L" = "L" ∧ normalize_unit "l" = "l" ∧ normalize_unit "mL" = "mL" ∧
    normalize_unit "ml" = "ml" ∧ normalize_unit "uL" = "uL" ∧ normalize_unit "ul" = "ul" ∧
    normalize_unit "C" = "C" ∧ normalize_unit "F" = "F" ∧ normalize_unit "K" = "K" := by
  refine ⟨fun c u hu => keys_normalize_fixed c u (isKey_mem_keys c u hu), ?_⟩
  decide

theorem C18_normalize_keeps_keys_witness : normalize_unit "cup" = "cup" :=
  C18_normalize_keeps_keys.1 .Volume "cup" (by decide)

/-- C19 (the failure kind is decided by `from_unit` alone): when `from_unit` is a key of some
table and `to_unit` is not a key of that table, whether it is a key of another table or of
none, `convert` fails with the incompatible-units error and with no unknown-unit error;
`convert("m", "xyz", 1.0)` does. -/
theorem C19_failure_kind_by_from_unit :
    (∀ (from_unit to_unit : String) (value : ℚ) (c : Category),
      isKey c from_unit = true → isKey c to_unit = false →
        convert from_unit to_unit value =
          .error (.runtime_error "Incompatible unit types (eg., length vs. mass)") ∧
        ∀ x y : String, convert from_unit to_unit value ≠
          .error (.runtime_error ("Unknown unit(s): from='" ++ x ++ "', to='" ++ y ++ "'"))) ∧
    convert "m" "xyz" 1.0 =
      .error (.runtime_error "Incompatible unit types (eg., length vs. mass)") := by
  refine ⟨?_, by decide⟩
  intro a b v c ha hb
  have h := convert_from_key c a b v ha hb
  refine ⟨h, fun x y hxy => ?_⟩
  rw [h] at hxy
  exact UnknownUnit_ne_IncompatibleUnits x y (Except.error.inj hxy).symm

theorem C19_failure_kind_by_from_unit_witness :
    convert "lb" "parsec" 4 =
      .error (.runtime_error "Incompatible unit types (eg., length vs. mass)") ∧
    ∀ x y : String, convert "lb" "parsec" 4 ≠
      .error (.runtime_error ("Unknown unit(s): from='" ++ x ++ "', to='" ++ y ++ "'")) :=
  C19_failure_kind_by_from_unit.1 "lb" "parsec" 4 .Mass (by decide) (by decide)

/-! ## Argument handling: what the loop of `parse_args` leaves behind -/

/-- On an argument list without help or list flag whose free tokens are all numbers, the
loop ends normally; the flags `have_*` and the fields of `result` are those of the units and
the value supplied, the last ones when several are. -/
theorem parse_loop_spec (stod : String → Option ℚ) (args : List String) (st : ParseState) :
    Token.help ∉ tokens args → Token.list ∉ tokens args →
    (∀ s, Token.free s ∈ tokens args → ∃ x, stod s = some x) →
    ∃ st2, parse_loop stod args st = .ok st2 ∧
      st2.result.show_help = st.result.show_help ∧
      st2.result.list_units = st.result.list_units ∧
      st2.have_from = (st.have_from || (supplied_from (tokens args)).isSome) ∧
      st2.have_to = (st.have_to || (supplied_to (tokens args)).isSome) ∧
      st2.have_value = (st.have_value || (supplied_value (tokens args)).isSome) ∧
      st2.result.from_unit =
        ((supplied_from (tokens args)).map normalize_unit).getD st.result.from_unit ∧
      st2.result.to_unit =
        ((supplied_to (tokens args)).map normalize_unit).getD st.result.to_unit ∧
      st2.result.value = ((supplied_value (tokens args)).map stod).getD st.result.value := by
  induction args, st using parse_loop.induct stod with
  | case1 st =>
    intro _ _ _
    exact ⟨st, by simp [parse_loop, tokens, supplied_from, supplied_to, supplied_value]⟩
  | case2 arg rest st h ih =>
    intro hhelp _ _
    exact absurd (by rw [tokens.eq_def]; simp [h]) hhelp
  | case3 arg rest st h1 h2 ih =>
    intro _ hlist _
    exact absurd (by rw [tokens.eq_def]; simp [h1, h2]) hlist
  | case4 arg st h1 h2 h3 next rest2 ih =>
    have ht : tokens (arg :: next :: rest2) = .from_unit next :: tokens rest2 := by
      simp [tokens, h1, h2, h3]
    rw [ht]
    intro hhelp hlist hnum
    obtain ⟨st2, hrun, e1, e2, e3, e4, e5, e6, e7, e8⟩ :=
      ih (fun h => hhelp (List.mem_cons_of_mem _ h)) (fun h => hlist (List.mem_cons_of_mem _ h))
        (fun s hs => hnum s (List.mem_cons_of_mem _ hs))
    refine ⟨st2, by simp [parse_loop, h1, h2, h3, hrun], e1, e2, ?_, ?_, ?_, ?_, ?_, ?_⟩
    · cases hs : supplied_from (tokens rest2) <;> simp_all [supplied_from]
    · cases hs : supplied_to (tokens rest2) <;> simp_all [supplied_to]
    · cases hs : supplied_value (tokens rest2) <;> simp_all [supplied_value]
    · cases hs : supplied_from (tokens rest2) <;> simp_all [supplied_from]
    · cases hs : supplied_to (tokens rest2) <;> simp_all [supplied_to]
    · cases hs : supplied_value (tokens rest2) <;> simp_all [supplied_value]
  | case5 arg st h1 h2 h3 =>
    intro _ _ _
    exact ⟨st, by simp [parse_loop, tokens, h1, h2, h3, supplied_from, supplied_to,
      supplied_value]⟩
  | case6 arg st h1 h2 h3 h4 next rest2 ih =>
    have ht : tokens (arg :: next :: rest2) = .to_unit next :: tokens rest2 := by
      simp [tokens, h1, h2, h3, h4]
    rw [ht]
    intro hhelp hlist hnum
    obtain ⟨st2, hrun, e1, e2, e3, e4, e5, e6, e7, e8⟩ :=
      ih (fun h => hhelp (List.mem_cons_of_mem _ h)) (fun h => hlist (List.mem_cons_of_mem _ h))
        (fun s hs => hnum s (List.mem_cons_of_mem _ hs))
    refine ⟨st2, by simp [parse_loop, h1, h2, h3, h4, hrun], e1, e2, ?_, ?_, ?_, ?_, ?_, ?_⟩
    · cases hs : supplied_from (tokens rest2) <;> simp_all [supplied_from]
    · cases hs : supplied_to (tokens rest2) <;> simp_all [supplied_to]
    · cases hs : supplied_value (tokens rest2) <;> simp_all [supplied_value]
    · cases hs : supplied_from (tokens rest2) <;> simp_all [supplied_from]
    · cases hs : supplied_to (tokens rest2) <;> simp_all [supplied_to]
    · cases hs : supplied_value (tokens rest2) <;> simp_all [supplied_value]
  | case7 arg st h1 h2 h3 h4 =>
    intro _ _ _
    exact ⟨st, by simp [parse_loop, tokens, h1, h2, h3, h4, supplied_from, supplied_to,
      supplied_value]⟩
  | case8 arg rest st h1 h2 h3 h4 x hx ih =>
    have ht : tokens (arg :: rest) = .free arg :: tokens rest := by
      rw [tokens.eq_def]
      simp [h1, h2, h3, h4]
    rw [ht]
    intro hhelp hlist hnum
    obtain ⟨st2, hrun, e1, e2, e3, e4, e5, e6, e7, e8⟩ :=
      ih (fun h => hhelp (List.mem_cons_of_mem _ h)) (fun h => hlist (List.mem_cons_of_mem _ h))
        (fun s hs => hnum s (List.mem_cons_of_mem _ hs))
    refine ⟨st2, by rw [parse_loop.eq_def]; simp [h1, h2, h3, h4, hx, hrun], e1, e2, ?_, ?_, ?_, ?_, ?_, ?_⟩
    · cases hs : supplied_from (tokens rest) <;> simp_all [supplied_from]
    · cases hs : supplied_to (tokens rest) <;> simp_all [supplied_to]
    · cases hs : supplied_value (tokens rest) <;> simp_all [supplied_value]
    · cases hs : supplied_from (tokens rest) <;> simp_all [supplied_from]
    · cases hs : supplied_to (tokens rest) <;> simp_all [supplied_to]
    · cases hs : supplied_value (tokens rest) <;> simp_all [supplied_value]
  | case9 arg rest st h1 h2 h3 h4 hx =>
    have ht : tokens (arg :: rest) = .free arg :: tokens rest := by
      rw [tokens.eq_def]
      simp [h1, h2, h3, h4]
    rw [ht]
    intro _ _ hnum
    obtain ⟨x, hx2⟩ := hnum arg (List.mem_cons_self _ _)
    rw [hx] at hx2
    cases hx2

/-- C17 (missing arguments): on an argument list that has no help flag and no list flag
and whose free tokens all parse as numbers, `parse_args` fails with the missing-arguments
error whenever a from-unit, a to-unit or a value is not supplied (a flag `-f`/`-t` that is
the last token supplies nothing), and returns normally when all three are, with `from_unit`
and `to_unit` the `normalize_unit` of the supplied tokens and `value` the number read. -/
theorem C17_missing_arguments (stod : String → Option ℚ) (prog : String) (args : List String)
    (hhelp : Token.help ∉ tokens args) (hlist : Token.list ∉ tokens args)
    (hnum : ∀ s, Token.free s ∈ tokens args → ∃ x, stod s = some x) :
    ((supplied_from (tokens args) = none ∨ supplied_to (tokens args) = none ∨
        supplied_value (tokens args) = none) →
      parse_args stod (prog :: args) = .error (.runtime_error "Missing required arguments")) ∧
    (∀ f t s : String, supplied_from (tokens args) = some f →
      supplied_to (tokens args) = some t → supplied_value (tokens args) = some s →
        ∃ r, parse_args stod (prog :: args) = .ok r ∧ r.from_unit = normalize_unit f ∧
          r.to_unit = normalize_unit t ∧ r.value = stod s) := by
  obtain ⟨st2, hrun, e1, e2, e3, e4, e5, e6, e7, e8⟩ :=
    parse_loop_spec stod args ⟨⟨"", "", none, false, false⟩, false, false, false⟩ hhelp hlist hnum
  simp only [Bool.false_or] at e1 e2 e3 e4 e5
  constructor
  · intro hmiss
    have hm : (!st2.have_from || !st2.have_to || !st2.have_value) = true := by
      rw [e3, e4, e5]
      rcases hmiss with h | h | h <;> simp [h]
    simp [parse_args, hrun, e1, e2, hm]
  · intro f t s hf ht hs
    refine ⟨st2.result, ?_, by simp [e6, hf], by simp [e7, ht], by simp [e8, hs]⟩
    have hm : (!st2.have_from || !st2.have_to || !st2.have_value) = false := by
      rw [e3, e4, e5]
      simp [hf, ht, hs]
    simp [parse_args, hrun, e1, e2, hm]

theorem C17_missing_arguments_witness :
    parse_args sample_stod ["convert", "5", "-t", "km", "-f"] =
      .error (.runtime_error "Missing required arguments") ∧
    ∃ r, parse_args sample_stod ["convert", "-f", "Meters", "--to", "Kilometers", "2.5"] =
        .ok r ∧
      r.from_unit = normalize_unit "Meters" ∧ r.to_unit = normalize_unit "Kilometers" ∧
      r.value = sample_stod "2.5" :=
  ⟨(C17_missing_arguments sample_stod "convert" ["5", "-t", "km", "-f"] (by decide) (by decide)
      (fun s hs => by
        have ht : tokens ["5", "-t", "km", "-f"] = [.free "5", .to_unit "km", .dangling] := by
          decide
        rw [ht] at hs
        simp at hs
        subst hs
        exact ⟨5, rfl⟩)).1 (Or.inl (by decide)),
   (C17_missing_arguments sample_stod "convert" ["-f", "Meters", "--to", "Kilometers", "2.5"]
      (by decide) (by decide)
      (fun s hs => by
        have ht : tokens ["-f", "Meters", "--to", "Kilometers", "2.5"] =
            [.from_unit "Meters", .to_unit "Kilometers", .free "2.5"] := by
          decide
        rw [ht] at hs
        simp at hs
        subst hs
        exact ⟨2.5, rfl⟩)).2 "Meters" "Kilometers" "2.5" (by decide) (by decide) (by decide)⟩

/-! ## Binary64 arithmetic: rounding and the four operations -/

namespace F64

theorem log2_go_spec (fuel : Nat) : ∀ n : Nat, 0 < n → n ≤ fuel →
    2 ^ log2_go fuel n ≤ n ∧ n < 2 ^ (log2_go fuel n + 1) := by
  induction fuel with
  | zero => intro n h0 h; omega
  | succ f ih =>
    intro n h0 h
    unfold log2_go
    by_cases h2 : n < 2
    · rw [if_pos h2]
      constructor <;> simp <;> omega
    · rw [if_neg h2]
      have hdiv : 0 < n / 2 := Nat.div_pos (by omega) (by omega)
      have hle : n / 2 ≤ f := by omega
      obtain ⟨i1, i2⟩ := ih (n / 2) hdiv hle
      constructor
      · rw [pow_succ]
        omega
      · rw [pow_succ]
        omega

theorem log2_spec (n : Nat) (h : 0 < n) : 2 ^ log2 n ≤ n ∧ n < 2 ^ (log2 n + 1) :=
  log2_go_spec n n h le_rfl

theorem two_zpow_pos (e : ℤ) : (0 : ℚ) < 2 ^ e := zpow_pos (by norm_num) e

theorem shl_cast (x : Nat) (s : Int) : ((shl x s : ℕ) : ℚ) = x * 2 ^ s.toNat := by
  simp [shl]

/-- The quotient of the two scaled integers is `n / d / 2^q`. -/
theorem shl_div (n d : Nat) (q : Int) :
    ((shl n (-q) : ℕ) : ℚ) / ((shl d q : ℕ) : ℚ) = (n : ℚ) / d * 2 ^ (-q) := by
  rw [shl_cast, shl_cast]
  rcases le_total 0 q with h | h
  · obtain ⟨k, hk⟩ := Int.eq_ofNat_of_zero_le h
    subst hk
    have h1 : (-(k : ℤ)).toNat = 0 := Int.toNat_eq_zero.2 (by omega)
    rw [h1, pow_zero, mul_one, zpow_neg, zpow_natCast, Int.toNat_natCast]
    field_simp
  · obtain ⟨k, hk⟩ := Int.eq_ofNat_of_zero_le (show 0 ≤ -q by omega)
    have h1 : q.toNat = 0 := Int.toNat_eq_zero.2 h
    rw [h1, pow_zero, mul_one, hk, zpow_natCast, Int.toNat_natCast]
    field_simp

/-- The exponent computed is that of the leading bit of `n / d`. -/
theorem exponent_spec (n d : Nat) (hn : 0 < n) (hd : 0 < d) :
    (2 : ℚ) ^ exponent n d ≤ (n : ℚ) / d ∧ (n : ℚ) / d < 2 ^ (exponent n d + 1) := by
  obtain ⟨a1, a2⟩ := log2_spec n hn
  obtain ⟨b1, b2⟩ := log2_spec d hd
  have hdq : (0 : ℚ) < d := by exact_mod_cast hd
  have hnq : (0 : ℚ) < n := by exact_mod_cast hn
  have a1q : (2 : ℚ) ^ (log2 n : ℤ) ≤ n := by rw [zpow_natCast]; exact_mod_cast a1
  have a2q : (n : ℚ) < 2 ^ ((log2 n : ℤ) + 1) := by
    have : ((log2 n : ℤ) + 1) = ((log2 n + 1 : ℕ) : ℤ) := by push_cast; ring
    rw [this, zpow_natCast]; exact_mod_cast a2
  have b1q : (2 : ℚ) ^ (log2 d : ℤ) ≤ d := by rw [zpow_natCast]; exact_mod_cast b1
  have b2q : (d : ℚ) < 2 ^ ((log2 d : ℤ) + 1) := by
    have : ((log2 d : ℤ) + 1) = ((log2 d + 1 : ℕ) : ℤ) := by push_cast; ring
    rw [this, zpow_natCast]; exact_mod_cast b2
  have h2 : (2 : ℚ) ≠ 0 := by norm_num
  -- the test of `exponent` compares `n / d` with `2 ^ k`
  have hcmp : shl d ((log2 n : ℤ) - log2 d) ≤ shl n (-((log2 n : ℤ) - log2 d)) ↔
      (2 : ℚ) ^ ((log2 n : ℤ) - log2 d) ≤ (n : ℚ) / d := by
    have hq := shl_div n d ((log2 n : ℤ) - log2 d)
    have hpos : (0 : ℚ) < ((shl d ((log2 n : ℤ) - log2 d) : ℕ) : ℚ) := by
      rw [shl_cast]; positivity
    rw [← Nat.cast_le (α := ℚ), ← one_le_div hpos, hq, zpow_neg,
      ← div_eq_mul_inv, le_div_iff₀ (two_zpow_pos _), one_mul]
  unfold exponent
  simp only []
  by_cases hc : shl d ((log2 n : ℤ) - log2 d) ≤ shl n (-((log2 n : ℤ) - log2 d))
  · rw [if_pos hc]
    refine ⟨hcmp.1 hc, ?_⟩
    rw [div_lt_iff₀ hdq]
    calc (n : ℚ) < 2 ^ ((log2 n : ℤ) + 1) := a2q
      _ = 2 ^ ((log2 n : ℤ) - log2 d + 1) * 2 ^ (log2 d : ℤ) := by
        rw [← zpow_add₀ h2]; congr 1; ring
      _ ≤ 2 ^ ((log2 n : ℤ) - log2 d + 1) * d :=
        mul_le_mul_of_nonneg_left b1q (two_zpow_pos _).le
  · rw [if_neg hc]
    constructor
    · rw [le_div_iff₀ hdq]
      calc (2 : ℚ) ^ ((log2 n : ℤ) - log2 d - 1) * d
          ≤ 2 ^ ((log2 n : ℤ) - log2 d - 1) * 2 ^ ((log2 d : ℤ) + 1) :=
            mul_le_mul_of_nonneg_left b2q.le (two_zpow_pos _).le
        _ = 2 ^ (log2 n : ℤ) := by rw [← zpow_add₀ h2]; congr 1; ring
        _ ≤ n := a1q
    · have := lt_of_not_le (fun h => hc (hcmp.2 h))
      simpa using this


/-- The integer returned is within one half of the quotient. -/
theorem roundInt_spec (num den : Nat) (hden : 0 < den) :
    |((roundInt num den : ℕ) : ℚ) - (num : ℚ) / den| ≤ 1 / 2 := by
  have hdq : (0 : ℚ) < den := by exact_mod_cast hden
  have hdm := Nat.div_add_mod num den
  have hr : num % den < den := Nat.mod_lt _ hden
  have hx : (num : ℚ) / den = (num / den : ℕ) + ((num % den : ℕ) : ℚ) / den := by
    have : (num : ℚ) = den * (num / den : ℕ) + (num % den : ℕ) := by exact_mod_cast hdm.symm
    field_simp
    linarith
  have hrq : ((num % den : ℕ) : ℚ) < den := by exact_mod_cast hr
  have hr0 : (0 : ℚ) ≤ (num % den : ℕ) := by positivity
  unfold roundInt
  simp only []
  by_cases hup : den < 2 * (num % den) ∨ (2 * (num % den) = den ∧ num / den % 2 = 1)
  · rw [if_pos hup]
    have h2 : (den : ℚ) ≤ 2 * (num % den : ℕ) := by
      rcases hup with h | ⟨h, -⟩
      · exact_mod_cast h.le
      · exact_mod_cast h.ge
    rw [hx, abs_le]
    push_cast
    constructor
    · have : ((num % den : ℕ) : ℚ) / den ≤ 1 := by rw [div_le_one hdq]; exact hrq.le
      linarith
    · have : (1 : ℚ) / 2 ≤ ((num % den : ℕ) : ℚ) / den := by
        rw [le_div_iff₀ hdq]; linarith
      linarith
  · rw [if_neg hup]
    have h2 : 2 * ((num % den : ℕ) : ℚ) ≤ den := by
      have : 2 * (num % den) ≤ den := by
        by_contra hh
        exact hup (Or.inl (by omega))
      exact_mod_cast this
    rw [hx, abs_le]
    constructor
    · have : (0 : ℚ) ≤ ((num % den : ℕ) : ℚ) / den := by positivity
      have : ((num % den : ℕ) : ℚ) / den ≤ 1 / 2 := by
        rw [div_le_iff₀ hdq]; linarith
      linarith
    · have : (0 : ℚ) ≤ ((num % den : ℕ) : ℚ) / den := by positivity
      linarith

theorem shl_pos (d : Nat) (hd : 0 < d) (q : Int) : 0 < shl d q := by
  unfold shl
  positivity

/-- What rounding returns: a value of the format; and, when `n / d` is below `2^1000`, a
finite one within half a unit in the last place of `n / d`. -/
theorem round_spec (s : Bool) (n d : Nat) (hd : 0 < d) :
    canonical (round s n d) ∧
    ((n : ℚ) / d < 2 ^ (1000 : ℤ) →
      isFinite (round s n d) = true ∧
      |toRat (round s n d) - (if s then -1 else 1) * ((n : ℚ) / d)| ≤
        2 ^ (-53 : ℤ) * ((n : ℚ) / d) + 2 ^ (-1075 : ℤ)) := by
  have hdq : (0 : ℚ) < d := by exact_mod_cast hd
  have h2 : (2 : ℚ) ≠ 0 := by norm_num
  have h12 : (1 : ℚ) < 2 := by norm_num
  rcases Nat.eq_zero_or_pos n with hn0 | hnpos
  · subst hn0
    refine ⟨by simp [round, canonical], fun _ => ⟨by simp [round, isFinite], ?_⟩⟩
    have : (0 : ℚ) ≤ 2 ^ (-1075 : ℤ) := (two_zpow_pos _).le
    simpa [round, toRat] using this
  · obtain ⟨s1, s2⟩ := exponent_spec n d hnpos hd
    have hxpos : (0 : ℚ) < (n : ℚ) / d := by positivity
    set E := exponent n d with hE
    set q : ℤ := max (E - 52) (-1074) with hq
    have hden : 0 < shl d q := shl_pos d hd q
    have hdenq : (0 : ℚ) < ((shl d q : ℕ) : ℚ) := by exact_mod_cast hden
    set M := roundInt (shl n (-q)) (shl d q) with hM
    have hX := shl_div n d q
    have hrs := roundInt_spec (shl n (-q)) (shl d q) hden
    rw [← hM, hX] at hrs
    obtain ⟨r1, r2⟩ := abs_le.1 hrs
    have hq1 : E - 52 ≤ q := le_max_left _ _
    have hq2 : -1074 ≤ q := le_max_right _ _
    -- the scaled quotient is below 2^53
    have hXlt : (n : ℚ) / d * 2 ^ (-q) < 2 ^ (53 : ℤ) := by
      calc (n : ℚ) / d * 2 ^ (-q) < 2 ^ (E + 1) * 2 ^ (-q) :=
            mul_lt_mul_of_pos_right s2 (two_zpow_pos _)
        _ = 2 ^ (E + 1 - q) := by rw [← zpow_add₀ h2]; congr 1
        _ ≤ 2 ^ (53 : ℤ) := zpow_le_zpow_right₀ h12.le (by omega)
    have hM53 : M ≤ 2 ^ 53 := by
      have : (M : ℚ) < 2 ^ (53 : ℤ) + 1 := by linarith
      rw [zpow_ofNat] at this
      have h4 : M < 2 ^ 53 + 1 := by exact_mod_cast this
      omega
    have hMlow : 2 ^ 52 ≤ M ∨ q = -1074 := by
      by_cases hc : -1074 ≤ E - 52
      · left
        have hqe : q = E - 52 := max_eq_left hc
        have hXge : (2 : ℚ) ^ (52 : ℤ) ≤ (n : ℚ) / d * 2 ^ (-q) := by
          calc (2 : ℚ) ^ (52 : ℤ) = 2 ^ E * 2 ^ (-q) := by
                rw [← zpow_add₀ h2]; congr 1; omega
            _ ≤ (n : ℚ) / d * 2 ^ (-q) :=
                mul_le_mul_of_nonneg_right s1 (two_zpow_pos _).le
        have : (2 : ℚ) ^ (52 : ℤ) - 1 < M := by linarith
        rw [zpow_ofNat] at this
        have h3 : (2 : ℚ) ^ 52 < (M : ℚ) + 1 := by linarith
        have h4 : 2 ^ 52 < M + 1 := by exact_mod_cast h3
        omega
      · right
        exact max_eq_right (by omega)
    -- the value returned, when finite, is `M * 2^q`, within `2^(q-1)` of `n / d`
    have herr : |(M : ℚ) * 2 ^ q - (n : ℚ) / d| ≤
        2 ^ (-53 : ℤ) * ((n : ℚ) / d) + 2 ^ (-1075 : ℤ) := by
      have e1 : (M : ℚ) * 2 ^ q - (n : ℚ) / d = ((M : ℚ) - (n : ℚ) / d * 2 ^ (-q)) * 2 ^ q := by
        rw [sub_mul, mul_assoc, ← zpow_add₀ h2, neg_add_cancel, zpow_zero, mul_one]
      rw [e1, abs_mul, abs_of_pos (two_zpow_pos q)]
      have e2 : |(M : ℚ) - (n : ℚ) / d * 2 ^ (-q)| * 2 ^ q ≤ 1 / 2 * 2 ^ q :=
        mul_le_mul_of_nonneg_right hrs (two_zpow_pos q).le
      have e3 : (1 : ℚ) / 2 * 2 ^ q = 2 ^ (q - 1) := by
        rw [zpow_sub₀ h2, zpow_one]; ring
      rw [e3] at e2
      refine e2.trans ?_
      by_cases hc : -1074 ≤ E - 52
      · have hqe : q = E - 52 := max_eq_left hc
        have : (2 : ℚ) ^ (q - 1) = 2 ^ (-53 : ℤ) * 2 ^ E := by
          rw [← zpow_add₀ h2]; congr 1; omega
        rw [this]
        have := mul_le_mul_of_nonneg_left s1 (two_zpow_pos (-53)).le
        have := (two_zpow_pos (-1075)).le
        linarith
      · have hqe : q = -1074 := max_eq_right (by omega)
        have : (2 : ℚ) ^ (q - 1) = 2 ^ (-1075 : ℤ) := by rw [hqe]; norm_num
        rw [this]
        have : (0 : ℚ) ≤ 2 ^ (-53 : ℤ) * ((n : ℚ) / d) :=
          mul_nonneg (two_zpow_pos _).le hxpos.le
        linarith
    have hround : round s n d =
        if M = 2 ^ 53 then (if 971 < q + 1 then .inf s else .finite s (2 ^ 52) (q + 1))
        else (if 971 < q then .inf s else .finite s M q) := by
      unfold round
      rw [if_neg hnpos.ne']
    have hsign : |(if s then (-1 : ℚ) else 1)| = 1 := by cases s <;> simp
    constructor
    · rw [hround]
      by_cases c1 : M = 2 ^ 53
      · rw [if_pos c1]
        by_cases c2 : 971 < q + 1
        · rw [if_pos c2]; trivial
        · rw [if_neg c2]
          exact ⟨by norm_num, by omega, by omega, Or.inl le_rfl⟩
      · rw [if_neg c1]
        by_cases c3 : 971 < q
        · rw [if_pos c3]; trivial
        · rw [if_neg c3]
          exact ⟨by omega, hq2, by omega, hMlow⟩
    · intro hbig
      have hE1000 : E < 1000 := (zpow_lt_zpow_iff_right₀ h12).1 (lt_of_le_of_lt s1 hbig)
      have hq970 : q ≤ 970 := by
        rcases max_choice (E - 52) (-1074) with h | h <;> rw [hq, h] <;> omega
      have c2 : ¬ (971 < q + 1) := by omega
      have c3 : ¬ (971 < q) := by omega
      rw [hround]
      by_cases c1 : M = 2 ^ 53
      · rw [if_pos c1, if_neg c2]
        refine ⟨rfl, ?_⟩
        have hval : toRat (.finite s (2 ^ 52) (q + 1)) =
            (if s then -1 else 1) * ((M : ℚ) * 2 ^ q) := by
          simp only [toRat, c1]
          rw [zpow_add₀ h2, zpow_one]
          push_cast
          ring
        rw [hval, ← mul_sub, abs_mul, hsign, one_mul]
        exact herr
      · rw [if_neg c1, if_neg c3]
        refine ⟨rfl, ?_⟩
        have hval : toRat (.finite s M q) = (if s then -1 else 1) * ((M : ℚ) * 2 ^ q) := by
          simp only [toRat]
          ring
        rw [hval, ← mul_sub, abs_mul, hsign, one_mul]
        exact herr


theorem shl_cast_nonneg (x : Nat) (s : Int) (h : 0 ≤ s) :
    ((shl x s : ℕ) : ℚ) = x * 2 ^ s := by
  obtain ⟨k, hk⟩ := Int.eq_ofNat_of_zero_le h
  subst hk
  rw [shl_cast, Int.toNat_natCast, zpow_natCast]

theorem sign_xor (s1 s2 : Bool) :
    (if xor s1 s2 then (-1 : ℚ) else 1) = (if s1 then -1 else 1) * (if s2 then -1 else 1) := by
  cases s1 <;> cases s2 <;> simp

theorem abs_sign (s : Bool) : |(if s then (-1 : ℚ) else 1)| = 1 := by
  cases s <;> simp

theorem abs_toRat (s : Bool) (m : Nat) (e : Int) :
    |toRat (.finite s m e)| = (m : ℚ) * 2 ^ e := by
  simp only [toRat]
  rw [abs_mul, abs_mul, abs_sign, one_mul, abs_of_nonneg (by positivity : (0 : ℚ) ≤ m),
    abs_of_pos (two_zpow_pos e)]

/-- The error of one rounding, for a fraction given with its sign. -/
theorem round_err (s : Bool) (n d : Nat) (hd : 0 < d) (x : ℚ)
    (hx : x = (if s then -1 else 1) * ((n : ℚ) / d)) (hbig : |x| < 2 ^ (1000 : ℤ)) :
    isFinite (round s n d) = true ∧
      |toRat (round s n d) - x| ≤ 2 ^ (-53 : ℤ) * |x| + 2 ^ (-1075 : ℤ) := by
  have hnd : (0 : ℚ) ≤ (n : ℚ) / d := by positivity
  have habs : |x| = (n : ℚ) / d := by
    rw [hx, abs_mul, abs_sign, one_mul, abs_of_nonneg hnd]
  rw [habs] at hbig ⊢
  rw [hx]
  exact (round_spec s n d hd).2 hbig

theorem canonical_div (a b : F64) : canonical (div a b) := by
  cases a <;> cases b <;> simp only [div] <;> (try split_ifs) <;>
    first
    | trivial
    | exact (round_spec _ _ _ (shl_pos _ (Nat.pos_of_ne_zero (by assumption)) _)).1

theorem canonical_add (a b : F64) : canonical (add a b) := by
  cases a <;> cases b <;> simp only [add] <;> (try split_ifs) <;>
    first
    | trivial
    | exact (round_spec _ _ _ (shl_pos 1 (by norm_num) _)).1

theorem canonical_neg (a : F64) (h : canonical a) : canonical (neg a) := by
  cases a <;> simp_all [neg, canonical]

theorem canonical_sub (a b : F64) : canonical (sub a b) := canonical_add _ _

/-- The error of a product of finite values. -/
theorem mul_err (a b : F64) (ha : isFinite a = true) (hb : isFinite b = true)
    (hbig : |toRat a * toRat b| < 2 ^ (1000 : ℤ)) :
    isFinite (mul a b) = true ∧
      |toRat (mul a b) - toRat a * toRat b| ≤
        2 ^ (-53 : ℤ) * |toRat a * toRat b| + 2 ^ (-1075 : ℤ) := by
  cases a with
  | nan => simp [isFinite] at ha
  | inf s => simp [isFinite] at ha
  | finite s1 m1 e1 =>
    cases b with
    | nan => simp [isFinite] at hb
    | inf s => simp [isFinite] at hb
    | finite s2 m2 e2 =>
      simp only [mul]
      apply round_err _ _ _ (shl_pos 1 (by norm_num) _) _ _ hbig
      have h := shl_div (m1 * m2) 1 (-(e1 + e2))
      rw [neg_neg] at h
      have h2 : (2 : ℚ) ≠ 0 := by norm_num
      rw [h, sign_xor, zpow_add₀ h2]
      simp only [toRat]
      push_cast
      ring

/-- The error of a quotient of finite values, the divisor not zero. -/
theorem div_err (a b : F64) (ha : isFinite a = true) (hb : isFinite b = true)
    (hb0 : toRat b ≠ 0) (hbig : |toRat a / toRat b| < 2 ^ (1000 : ℤ)) :
    isFinite (div a b) = true ∧
      |toRat (div a b) - toRat a / toRat b| ≤
        2 ^ (-53 : ℤ) * |toRat a / toRat b| + 2 ^ (-1075 : ℤ) := by
  cases a with
  | nan => simp [isFinite] at ha
  | inf s => simp [isFinite] at ha
  | finite s1 m1 e1 =>
    cases b with
    | nan => simp [isFinite] at hb
    | inf s => simp [isFinite] at hb
    | finite s2 m2 e2 =>
      have hm2 : m2 ≠ 0 := by
        intro h
        apply hb0
        simp [toRat, h]
      have hm2q : (m2 : ℚ) ≠ 0 := by exact_mod_cast hm2
      simp only [div]
      rw [if_neg hm2]
      apply round_err _ _ _ (shl_pos m2 (Nat.pos_of_ne_zero hm2) _) _ _ hbig
      have h := shl_div m1 m2 (e2 - e1)
      have e3 : -(e2 - e1) = e1 - e2 := by ring
      rw [e3] at h
      have h2 : (2 : ℚ) ≠ 0 := by norm_num
      rw [h, sign_xor, zpow_sub₀ h2]
      simp only [toRat]
      have hs : (if s2 then (-1 : ℚ) else 1) ≠ 0 := by cases s2 <;> simp
      have hp : (2 : ℚ) ^ e2 ≠ 0 := (two_zpow_pos e2).ne'
      cases s1 <;> cases s2 <;> simp <;> field_simp

/-- The error of a sum of finite values. -/
theorem add_err (a b : F64) (ha : isFinite a = true) (hb : isFinite b = true)
    (hbig : |toRat a + toRat b| < 2 ^ (1000 : ℤ)) :
    isFinite (add a b) = true ∧
      |toRat (add a b) - (toRat a + toRat b)| ≤
        2 ^ (-53 : ℤ) * |toRat a + toRat b| + 2 ^ (-1075 : ℤ) := by
  cases a with
  | nan => simp [isFinite] at ha
  | inf s => simp [isFinite] at ha
  | finite s1 m1 e1 =>
    cases b with
    | nan => simp [isFinite] at hb
    | inf s => simp [isFinite] at hb
    | finite s2 m2 e2 =>
      have h2 : (2 : ℚ) ≠ 0 := by norm_num
      set e := min e1 e2 with he
      have he1 : 0 ≤ e1 - e := by have := min_le_left e1 e2; omega
      have he2 : 0 ≤ e2 - e := by have := min_le_right e1 e2; omega
      set A : ℤ := if s1 then -(shl m1 (e1 - e) : ℤ) else (shl m1 (e1 - e) : ℤ) with hA
      set B : ℤ := if s2 then -(shl m2 (e2 - e) : ℤ) else (shl m2 (e2 - e) : ℤ) with hB
      have hAq : (A : ℚ) * 2 ^ e = toRat (.finite s1 m1 e1) := by
        have : (A : ℚ) = (if s1 then -1 else 1) * ((shl m1 (e1 - e) : ℕ) : ℚ) := by
          rw [hA]; cases s1 <;> simp
        rw [this, shl_cast_nonneg _ _ he1, zpow_sub₀ h2]
        simp only [toRat]
        field_simp
      have hBq : (B : ℚ) * 2 ^ e = toRat (.finite s2 m2 e2) := by
        have : (B : ℚ) = (if s2 then -1 else 1) * ((shl m2 (e2 - e) : ℕ) : ℚ) := by
          rw [hB]; cases s2 <;> simp
        rw [this, shl_cast_nonneg _ _ he2, zpow_sub₀ h2]
        simp only [toRat]
        field_simp
      have hsum : toRat (.finite s1 m1 e1) + toRat (.finite s2 m2 e2) = ((A + B : ℤ) : ℚ) * 2 ^ e := by
        rw [← hAq, ← hBq]; push_cast; ring
      have hadd : add (.finite s1 m1 e1) (.finite s2 m2 e2) =
          if A + B = 0 then .finite (s1 && s2) 0 (-1074)
          else round (decide (A + B < 0)) (shl (A + B).natAbs e) (shl 1 (-e)) := rfl
      rw [hadd]
      by_cases h0 : A + B = 0
      · rw [if_pos h0, hsum, h0]
        refine ⟨rfl, ?_⟩
        simp [toRat]
        positivity
      · rw [if_neg h0]
        apply round_err _ _ _ (shl_pos 1 (by norm_num) _) _ _ hbig
        have h := shl_div (A + B).natAbs 1 (-e)
        rw [neg_neg] at h
        rw [h]
        try rw [hsum]
        have habs : (((A + B).natAbs : ℕ) : ℚ) = |((A + B : ℤ) : ℚ)| := by
          rw [Nat.cast_natAbs, Int.cast_abs]
        rw [habs]
        by_cases hneg : A + B < 0
        · have : ((A + B : ℤ) : ℚ) < 0 := by exact_mod_cast hneg
          rw [abs_of_neg this]
          simp [hneg]
          try ring
        · have : (0 : ℚ) ≤ ((A + B : ℤ) : ℚ) := by exact_mod_cast (not_lt.1 hneg)
          rw [abs_of_nonneg this]
          simp [hneg]
          try ring

theorem toRat_neg (a : F64) : toRat (neg a) = -toRat a := by
  cases a <;> simp [neg, toRat]
  rename_i s m e
  cases s <;> simp

theorem isFinite_neg (a : F64) : isFinite (neg a) = isFinite a := by
  cases a <;> rfl

/-- The error of a difference of finite values. -/
theorem sub_err (a b : F64) (ha : isFinite a = true) (hb : isFinite b = true)
    (hbig : |toRat a - toRat b| < 2 ^ (1000 : ℤ)) :
    isFinite (sub a b) = true ∧
      |toRat (sub a b) - (toRat a - toRat b)| ≤
        2 ^ (-53 : ℤ) * |toRat a - toRat b| + 2 ^ (-1075 : ℤ) := by
  have h := add_err a (neg b) ha (by rw [isFinite_neg]; exact hb)
    (by rw [toRat_neg, ← sub_eq_add_neg]; exact hbig)
  rw [toRat_neg, ← sub_eq_add_neg] at h
  exact h

end F64

/-! ## Error analysis of the linear formula -/

namespace F64

theorem normalIn_spec (lo hi : Int) (f : F64) (h : normalIn lo hi f = true) :
    isFinite f = true ∧ (2 : ℚ) ^ (52 + lo) ≤ toRat f ∧ toRat f ≤ 2 ^ (53 + hi) := by
  cases f with
  | nan => simp [normalIn] at h
  | inf s => simp [normalIn] at h
  | finite s m e =>
    cases s with
    | true => simp [normalIn] at h
    | false =>
      simp only [normalIn, Bool.and_eq_true, decide_eq_true_eq] at h
      obtain ⟨⟨⟨h1, h2⟩, h3⟩, h4⟩ := h
      have h2q : (2 : ℚ) ≠ 0 := by norm_num
      have m1 : (2 : ℚ) ^ (52 : ℤ) ≤ m := by rw [zpow_ofNat]; exact_mod_cast h1
      have m2 : (m : ℚ) ≤ 2 ^ (53 : ℤ) := by rw [zpow_ofNat]; exact_mod_cast h2.le
      have hm0 : (0 : ℚ) ≤ m := by positivity
      refine ⟨rfl, ?_, ?_⟩
      · simp only [toRat]
        calc (2 : ℚ) ^ (52 + lo) = 2 ^ (52 : ℤ) * 2 ^ lo := by rw [zpow_add₀ h2q]
          _ ≤ m * 2 ^ e := mul_le_mul m1 (zpow_le_zpow_right₀ (by norm_num) h3)
              (two_zpow_pos _).le hm0
          _ = (if false = true then -1 else 1) * (m : ℚ) * 2 ^ e := by simp
      · simp only [toRat]
        calc (if false = true then -1 else 1) * (m : ℚ) * 2 ^ e = m * 2 ^ e := by simp
          _ ≤ 2 ^ (53 : ℤ) * 2 ^ hi := mul_le_mul m2 (zpow_le_zpow_right₀ (by norm_num) h4)
              (two_zpow_pos _).le (two_zpow_pos _).le
          _ = 2 ^ (53 + hi) := by rw [zpow_add₀ h2q]

theorem relApprox_bounds (x : F64) (t κ : ℚ) (hx : RelApprox x t κ) (hκ : 0 ≤ κ ∧ κ ≤ 100)
    (ht : 0 < t) : t / 2 ≤ toRat x ∧ toRat x ≤ 2 * t := by
  obtain ⟨-, h⟩ := hx
  obtain ⟨h1, h2⟩ := abs_le.1 h
  have hu : κ * (2 : ℚ) ^ (-52 : ℤ) ≤ 1 / 2 := by
    have : (2 : ℚ) ^ (-52 : ℤ) ≤ 1 / 200 := by norm_num
    nlinarith [hκ.1, hκ.2, two_zpow_pos (-52)]
  have h3 : κ * (2 : ℚ) ^ (-52 : ℤ) * t ≤ 1 / 2 * t := mul_le_mul_of_nonneg_right hu ht.le
  generalize κ * (2 : ℚ) ^ (-52 : ℤ) * t = w at h1 h2 h3
  constructor <;> linarith

/-- One more rounding: a product with a positive constant. -/
theorem rel_mul (x c : F64) (t κ : ℚ) (hx : RelApprox x t κ) (hκ : 0 ≤ κ ∧ κ ≤ 100)
    (ht : 0 < t) (hc : isFinite c = true) (hcv : 0 < toRat c)
    (hr : (2 : ℚ) ^ (-1000 : ℤ) ≤ t * toRat c ∧ t * toRat c ≤ 2 ^ (990 : ℤ)) :
    RelApprox (mul x c) (t * toRat c) (κ + 2) := by
  obtain ⟨b1, b2⟩ := relApprox_bounds x t κ hx hκ ht
  obtain ⟨hfin, hclose⟩ := hx
  have hXpos : 0 < toRat x := by linarith
  have hP : 0 < toRat x * toRat c := mul_pos hXpos hcv
  have hP2 : toRat x * toRat c ≤ 2 * (t * toRat c) := by
    have := mul_le_mul_of_nonneg_right b2 hcv.le
    linarith
  have hbig : |toRat x * toRat c| < 2 ^ (1000 : ℤ) := by
    rw [abs_of_pos hP]
    have : (2 : ℚ) * 2 ^ (990 : ℤ) < 2 ^ (1000 : ℤ) := by norm_num
    linarith [hr.2]
  obtain ⟨hf, he⟩ := mul_err x c hfin hc hbig
  rw [abs_of_pos hP] at he
  refine ⟨hf, ?_⟩
  have d1 : |toRat x * toRat c - t * toRat c| ≤ κ * 2 ^ (-52 : ℤ) * t * toRat c := by
    rw [← sub_mul, abs_mul, abs_of_pos hcv]
    exact mul_le_mul_of_nonneg_right hclose hcv.le
  have d2 : (2 : ℚ) ^ (-1075 : ℤ) ≤ 2 ^ (-52 : ℤ) * (t * toRat c) := by
    have : (2 : ℚ) ^ (-1075 : ℤ) ≤ 2 ^ (-52 : ℤ) * 2 ^ (-1000 : ℤ) := by norm_num
    have := mul_le_mul_of_nonneg_left hr.1 (two_zpow_pos (-52)).le
    linarith
  have d3 : (2 : ℚ) ^ (-53 : ℤ) * (toRat x * toRat c) ≤ 2 ^ (-52 : ℤ) * (t * toRat c) := by
    have e1 : (2 : ℚ) ^ (-52 : ℤ) = 2 ^ (-53 : ℤ) * 2 := by norm_num
    rw [e1, mul_assoc]
    exact mul_le_mul_of_nonneg_left hP2 (two_zpow_pos _).le
  have tri : |toRat (mul x c) - t * toRat c| ≤
      |toRat (mul x c) - toRat x * toRat c| + |toRat x * toRat c - t * toRat c| := by
    have := abs_add (toRat (mul x c) - toRat x * toRat c) (toRat x * toRat c - t * toRat c)
    simpa using this
  calc |toRat (mul x c) - t * toRat c|
      ≤ |toRat (mul x c) - toRat x * toRat c| + |toRat x * toRat c - t * toRat c| := tri
    _ ≤ (κ + 2) * 2 ^ (-52 : ℤ) * (t * toRat c) := by linarith

/-- One more rounding: a quotient by a positive constant. -/
theorem rel_div (x c : F64) (t κ : ℚ) (hx : RelApprox x t κ) (hκ : 0 ≤ κ ∧ κ ≤ 100)
    (ht : 0 < t) (hc : isFinite c = true) (hcv : 0 < toRat c)
    (hr : (2 : ℚ) ^ (-1000 : ℤ) ≤ t / toRat c ∧ t / toRat c ≤ 2 ^ (990 : ℤ)) :
    RelApprox (div x c) (t / toRat c) (κ + 2) := by
  obtain ⟨b1, b2⟩ := relApprox_bounds x t κ hx hκ ht
  obtain ⟨hfin, hclose⟩ := hx
  have hXpos : 0 < toRat x := by linarith
  have hP : 0 < toRat x / toRat c := div_pos hXpos hcv
  have hP2 : toRat x / toRat c ≤ 2 * (t / toRat c) := by
    have := div_le_div_of_nonneg_right b2 hcv.le
    rw [mul_div_assoc] at this
    exact this
  have hbig : |toRat x / toRat c| < 2 ^ (1000 : ℤ) := by
    rw [abs_of_pos hP]
    have : (2 : ℚ) * 2 ^ (990 : ℤ) < 2 ^ (1000 : ℤ) := by norm_num
    linarith [hr.2]
  obtain ⟨hf, he⟩ := div_err x c hfin hc hcv.ne' hbig
  rw [abs_of_pos hP] at he
  refine ⟨hf, ?_⟩
  have d1 : |toRat x / toRat c - t / toRat c| ≤ κ * 2 ^ (-52 : ℤ) * (t / toRat c) := by
    rw [← sub_div, abs_div, abs_of_pos hcv, ← mul_div_assoc]
    exact div_le_div_of_nonneg_right hclose hcv.le
  have d2 : (2 : ℚ) ^ (-1075 : ℤ) ≤ 2 ^ (-52 : ℤ) * (t / toRat c) := by
    have : (2 : ℚ) ^ (-1075 : ℤ) ≤ 2 ^ (-52 : ℤ) * 2 ^ (-1000 : ℤ) := by norm_num
    have := mul_le_mul_of_nonneg_left hr.1 (two_zpow_pos (-52)).le
    linarith
  have d3 : (2 : ℚ) ^ (-53 : ℤ) * (toRat x / toRat c) ≤ 2 ^ (-52 : ℤ) * (t / toRat c) := by
    have e1 : (2 : ℚ) ^ (-52 : ℤ) = 2 ^ (-53 : ℤ) * 2 := by norm_num
    rw [e1, mul_assoc]
    exact mul_le_mul_of_nonneg_left hP2 (two_zpow_pos _).le
  have tri : |toRat (div x c) - t / toRat c| ≤
      |toRat (div x c) - toRat x / toRat c| + |toRat x / toRat c - t / toRat c| := by
    have := abs_add (toRat (div x c) - toRat x / toRat c) (toRat x / toRat c - t / toRat c)
    simpa using this
  calc |toRat (div x c) - t / toRat c|
      ≤ |toRat (div x c) - toRat x / toRat c| + |toRat x / toRat c - t / toRat c| := tri
    _ ≤ (κ + 2) * 2 ^ (-52 : ℤ) * (t / toRat c) := by linarith


theorem mul_pow_range (t c : ℚ) (k j : ℤ) (ht : (2 : ℚ) ^ (-k) ≤ t ∧ t ≤ 2 ^ k)
    (hc : (2 : ℚ) ^ (-j) ≤ c ∧ c ≤ 2 ^ j) :
    (2 : ℚ) ^ (-(k + j)) ≤ t * c ∧ t * c ≤ 2 ^ (k + j) := by
  have h2 : (2 : ℚ) ≠ 0 := by norm_num
  have tpos : 0 < t := lt_of_lt_of_le (two_zpow_pos _) ht.1
  have cpos : 0 < c := lt_of_lt_of_le (two_zpow_pos _) hc.1
  constructor
  · rw [neg_add, zpow_add₀ h2]
    exact mul_le_mul ht.1 hc.1 (two_zpow_pos _).le tpos.le
  · rw [zpow_add₀ h2]
    exact mul_le_mul ht.2 hc.2 cpos.le (two_zpow_pos _).le

theorem div_pow_range (t c : ℚ) (k j : ℤ) (ht : (2 : ℚ) ^ (-k) ≤ t ∧ t ≤ 2 ^ k)
    (hc : (2 : ℚ) ^ (-j) ≤ c ∧ c ≤ 2 ^ j) :
    (2 : ℚ) ^ (-(k + j)) ≤ t / c ∧ t / c ≤ 2 ^ (k + j) := by
  have cpos : 0 < c := lt_of_lt_of_le (two_zpow_pos _) hc.1
  have hinv : (2 : ℚ) ^ (-j) ≤ c⁻¹ ∧ c⁻¹ ≤ 2 ^ j := by
    constructor
    · rw [zpow_neg]
      exact inv_anti₀ cpos hc.2
    · have := inv_anti₀ (two_zpow_pos (-j)) hc.1
      rwa [zpow_neg, inv_inv] at this
  rw [div_eq_mul_inv]
  exact mul_pow_range t c⁻¹ k j ht hinv

theorem pow_range_weaken (t : ℚ) (k : ℤ) (hk : k ≤ 990)
    (ht : (2 : ℚ) ^ (-k) ≤ t ∧ t ≤ 2 ^ k) :
    (2 : ℚ) ^ (-1000 : ℤ) ≤ t ∧ t ≤ 2 ^ (990 : ℤ) :=
  ⟨le_trans (zpow_le_zpow_right₀ (by norm_num) (by omega)) ht.1,
   le_trans ht.2 (zpow_le_zpow_right₀ (by norm_num) hk)⟩

/-- The linear formula applied there and back, `((v * fa / fb) * fb) / fa`, with four
roundings: the result is within `8 * 2^-52` of `v`, relatively. -/
theorem linear_round_trip (fa fb v : F64) (hfa : normalIn (-72) (-42) fa = true)
    (hfb : normalIn (-72) (-42) fb = true) (hv : isFinite v = true)
    (hr : (2 : ℚ) ^ (-850 : ℤ) ≤ toRat v ∧ toRat v ≤ 2 ^ (850 : ℤ)) :
    RelApprox (div (mul (div (mul v fa) fb) fb) fa) (toRat v) 8 := by
  obtain ⟨fa1, fa2, fa3⟩ := normalIn_spec _ _ fa hfa
  obtain ⟨fb1, fb2, fb3⟩ := normalIn_spec _ _ fb hfb
  have ra : (2 : ℚ) ^ (-(20 : ℤ)) ≤ toRat fa ∧ toRat fa ≤ 2 ^ (20 : ℤ) :=
    ⟨by simpa using fa2, le_trans fa3 (by norm_num)⟩
  have rb : (2 : ℚ) ^ (-(20 : ℤ)) ≤ toRat fb ∧ toRat fb ≤ 2 ^ (20 : ℤ) :=
    ⟨by simpa using fb2, le_trans fb3 (by norm_num)⟩
  have pa : 0 < toRat fa := lt_of_lt_of_le (two_zpow_pos _) ra.1
  have pb : 0 < toRat fb := lt_of_lt_of_le (two_zpow_pos _) rb.1
  have pv : 0 < toRat v := lt_of_lt_of_le (two_zpow_pos _) hr.1
  have r0 : (2 : ℚ) ^ (-(850 : ℤ)) ≤ toRat v ∧ toRat v ≤ 2 ^ (850 : ℤ) := hr
  have r1 := mul_pow_range _ _ _ _ r0 ra
  have r2 := div_pow_range _ _ _ _ r1 rb
  have r3 := mul_pow_range _ _ _ _ r2 rb
  have r4 := div_pow_range _ _ _ _ r3 ra
  have a0 : RelApprox v (toRat v) 0 := ⟨hv, by simp⟩
  have a1 := rel_mul v fa _ 0 a0 (by norm_num) pv fa1 pa (pow_range_weaken _ _ (by norm_num) r1)
  have a2 := rel_div _ fb _ _ a1 (by norm_num) (mul_pos pv pa) fb1 pb
    (pow_range_weaken _ _ (by norm_num) r2)
  have a3 := rel_mul _ fb _ _ a2 (by norm_num) (div_pos (mul_pos pv pa) pb) fb1 pb
    (pow_range_weaken _ _ (by norm_num) r3)
  have a4 := rel_div _ fa _ _ a3 (by norm_num)
    (mul_pos (div_pos (mul_pos pv pa) pb) pb) fa1 pa (pow_range_weaken _ _ (by norm_num) r4)
  have e : toRat v * toRat fa / toRat fb * toRat fb / toRat fa = toRat v := by
    field_simp
  rw [e] at a4
  have e8 : (0 : ℚ) + 2 + 2 + 2 + 2 = 8 := by norm_num
  rw [e8] at a4
  exact a4

end F64

/-! ## Error analysis of the temperature transforms -/

namespace F64

theorem abs_tri (r s t : ℚ) : |r - t| ≤ |r - s| + |s - t| := by
  have := abs_add (r - s) (s - t)
  simpa using this

/-- One more rounding: a sum with a constant.  `B` bounds the magnitudes met. -/
theorem abs_step_add (x c : F64) (t ε B β : ℚ) (hx : AbsApprox x t ε) (hc : isFinite c = true)
    (ht : |t + toRat c| ≤ B / 2) (hε : ε ≤ B / 100) (hB : B ≤ 2 ^ (999 : ℤ))
    (hβ : 2 ^ (-53 : ℤ) * B + 2 ^ (-1075 : ℤ) ≤ β) :
    AbsApprox (add x c) (t + toRat c) (ε + β) := by
  obtain ⟨hfin, hclose⟩ := hx
  have e0 : 0 ≤ ε := le_trans (abs_nonneg _) hclose
  have d1 : |toRat x + toRat c - (t + toRat c)| ≤ ε := by
    have : toRat x + toRat c - (t + toRat c) = toRat x - t := by ring
    rw [this]; exact hclose
  have hS : |toRat x + toRat c| ≤ B := by
    have := abs_tri (toRat x + toRat c) (t + toRat c) 0
    simp only [sub_zero] at this
    linarith
  have hbig : |toRat x + toRat c| < 2 ^ (1000 : ℤ) := by
    have : (2 : ℚ) ^ (999 : ℤ) < 2 ^ (1000 : ℤ) := by norm_num
    linarith
  obtain ⟨hf, he⟩ := add_err x c hfin hc hbig
  refine ⟨hf, ?_⟩
  have d2 := mul_le_mul_of_nonneg_left hS (two_zpow_pos (-53)).le
  have := abs_tri (toRat (add x c)) (toRat x + toRat c) (t + toRat c)
  linarith

/-- One more rounding: a difference with a constant. -/
theorem abs_step_sub (x c : F64) (t ε B β : ℚ) (hx : AbsApprox x t ε) (hc : isFinite c = true)
    (ht : |t - toRat c| ≤ B / 2) (hε : ε ≤ B / 100) (hB : B ≤ 2 ^ (999 : ℤ))
    (hβ : 2 ^ (-53 : ℤ) * B + 2 ^ (-1075 : ℤ) ≤ β) :
    AbsApprox (sub x c) (t - toRat c) (ε + β) := by
  have h := abs_step_add x (neg c) t ε B β hx (by rw [isFinite_neg]; exact hc)
    (by rw [toRat_neg, ← sub_eq_add_neg]; exact ht) hε hB hβ
  rw [toRat_neg, ← sub_eq_add_neg] at h
  exact h

/-- One more rounding: a product with a constant between 0 and 16. -/
theorem abs_step_mul (x c : F64) (t ε B β : ℚ) (hx : AbsApprox x t ε) (hc : isFinite c = true)
    (hcv : 0 < toRat c ∧ toRat c ≤ 16)
    (ht : |t * toRat c| ≤ B / 2) (hε : ε ≤ B / 100) (hB : B ≤ 2 ^ (999 : ℤ))
    (hβ : 2 ^ (-53 : ℤ) * B + 2 ^ (-1075 : ℤ) ≤ β) :
    AbsApprox (mul x c) (t * toRat c) (ε * toRat c + β) := by
  obtain ⟨hfin, hclose⟩ := hx
  have e0 : 0 ≤ ε := le_trans (abs_nonneg _) hclose
  have d1 : |toRat x * toRat c - t * toRat c| ≤ ε * toRat c := by
    rw [← sub_mul, abs_mul, abs_of_pos hcv.1]
    exact mul_le_mul_of_nonneg_right hclose hcv.1.le
  have d0 : ε * toRat c ≤ ε * 16 := mul_le_mul_of_nonneg_left hcv.2 e0
  have hS : |toRat x * toRat c| ≤ B := by
    have := abs_tri (toRat x * toRat c) (t * toRat c) 0
    simp only [sub_zero] at this
    linarith
  have hbig : |toRat x * toRat c| < 2 ^ (1000 : ℤ) := by
    have : (2 : ℚ) ^ (999 : ℤ) < 2 ^ (1000 : ℤ) := by norm_num
    linarith
  obtain ⟨hf, he⟩ := mul_err x c hfin hc hbig
  refine ⟨hf, ?_⟩
  have d2 := mul_le_mul_of_nonneg_left hS (two_zpow_pos (-53)).le
  have := abs_tri (toRat (mul x c)) (toRat x * toRat c) (t * toRat c)
  linarith

/-- One more rounding: a quotient by a constant that is at least 1. -/
theorem abs_step_div (x c : F64) (t ε B β : ℚ) (hx : AbsApprox x t ε) (hc : isFinite c = true)
    (hcv : 1 ≤ toRat c)
    (ht : |t / toRat c| ≤ B / 2) (hε : ε ≤ B / 100) (hB : B ≤ 2 ^ (999 : ℤ))
    (hβ : 2 ^ (-53 : ℤ) * B + 2 ^ (-1075 : ℤ) ≤ β) :
    AbsApprox (div x c) (t / toRat c) (ε / toRat c + β) := by
  obtain ⟨hfin, hclose⟩ := hx
  have cpos : 0 < toRat c := by linarith
  have e0 : 0 ≤ ε := le_trans (abs_nonneg _) hclose
  have d1 : |toRat x / toRat c - t / toRat c| ≤ ε / toRat c := by
    rw [← sub_div, abs_div, abs_of_pos cpos]
    exact div_le_div_of_nonneg_right hclose cpos.le
  have d0 : ε / toRat c ≤ ε := div_le_self e0 hcv
  have hS : |toRat x / toRat c| ≤ B := by
    have := abs_tri (toRat x / toRat c) (t / toRat c) 0
    simp only [sub_zero] at this
    linarith
  have hbig : |toRat x / toRat c| < 2 ^ (1000 : ℤ) := by
    have : (2 : ℚ) ^ (999 : ℤ) < 2 ^ (1000 : ℤ) := by norm_num
    linarith
  obtain ⟨hf, he⟩ := div_err x c hfin hc cpos.ne' hbig
  refine ⟨hf, ?_⟩
  have d2 := mul_le_mul_of_nonneg_left hS (two_zpow_pos (-53)).le
  have d3 := abs_tri (toRat (div x c)) (toRat x / toRat c) (t / toRat c)
  generalize |toRat (div x c) - t / toRat c| = g1 at d3 ⊢
  generalize |toRat (div x c) - toRat x / toRat c| = g2 at d3 he
  generalize |toRat x / toRat c - t / toRat c| = g3 at d3 d1
  generalize (2 : ℚ) ^ (-53 : ℤ) * |toRat x / toRat c| = g4 at he d2
  generalize ε / toRat c = g5 at d1 ⊢
  linarith


theorem dec_32 : isFinite (dec 320 1) = true ∧ toRat (dec 320 1) = 32 := by
  have h : dec 320 1 = .finite false 4503599627370496 (-47) := by decide
  rw [h]
  norm_num [isFinite, toRat]

theorem dec_5 : isFinite (dec 50 1) = true ∧ toRat (dec 50 1) = 5 := by
  have h : dec 50 1 = .finite false 5629499534213120 (-50) := by decide
  rw [h]
  norm_num [isFinite, toRat]

theorem dec_9 : isFinite (dec 90 1) = true ∧ toRat (dec 90 1) = 9 := by
  have h : dec 90 1 = .finite false 5066549580791808 (-49) := by decide
  rw [h]
  norm_num [isFinite, toRat]

/-- The double `273.15`. -/
theorem dec_K : isFinite (dec 27315 2) = true ∧ 273 ≤ toRat (dec 27315 2) ∧
    toRat (dec 27315 2) ≤ 274 := by
  have h : dec 27315 2 = .finite false 4805305618032230 (-44) := by decide
  rw [h]
  norm_num [isFinite, toRat]

/-- The error one rounding adds when the magnitudes are at most `B`. -/
theorem beta_le (B : ℚ) (hB : 1 ≤ B) :
    0 ≤ (2 : ℚ) ^ (-53 : ℤ) * B + 2 ^ (-1075 : ℤ) ∧
    (2 : ℚ) ^ (-53 : ℤ) * B + 2 ^ (-1075 : ℤ) ≤ B * (113 / 10 ^ 18) := by
  have h1 : (2 : ℚ) ^ (-53 : ℤ) ≤ 112 / 10 ^ 18 := by norm_num
  have h2 : (2 : ℚ) ^ (-1075 : ℤ) ≤ 1 / 10 ^ 18 := by
    have : (2 : ℚ) ^ (-1075 : ℤ) ≤ 2 ^ (-60 : ℤ) := zpow_le_zpow_right₀ (by norm_num) (by norm_num)
    refine this.trans (by norm_num)
  have h3 := two_zpow_pos (-53)
  have h4 := two_zpow_pos (-1075)
  constructor
  · positivity
  · nlinarith

/-- Fahrenheit to Celsius, `(f - 32.0) * 5.0 / 9.0`: three roundings. -/
theorem toF_approx (x : F64) (t ε B β L : ℚ) (hx : AbsApprox x t ε)
    (hB : B ≤ 2 ^ (999 : ℤ)) (hβ : 2 ^ (-53 : ℤ) * B + 2 ^ (-1075 : ℤ) ≤ β)
    (hβ2 : β ≤ B / 10000) (hε : ε ≤ B / 1000) (hL : |t| ≤ L) (hLB : 5 * L + 160 ≤ B / 2) :
    AbsApprox (div (mul (sub x (dec 320 1)) (dec 50 1)) (dec 90 1)) ((t - 32) * 5 / 9)
      (((ε + β) * 5 + β) / 9 + β) := by
  obtain ⟨f32, v32⟩ := dec_32
  obtain ⟨f5, v5⟩ := dec_5
  obtain ⟨f9, v9⟩ := dec_9
  obtain ⟨l1, l2⟩ := abs_le.1 hL
  have e0 : 0 ≤ ε := le_trans (abs_nonneg _) hx.2
  have s1 := abs_step_sub x (dec 320 1) t ε B β hx f32
    (by rw [v32, abs_le]; constructor <;> linarith) (by linarith) hB hβ
  rw [v32] at s1
  have s2 := abs_step_mul _ (dec 50 1) _ _ B β s1 f5 (by rw [v5]; norm_num)
    (by rw [v5, abs_le]; constructor <;> linarith) (by linarith) hB hβ
  rw [v5] at s2
  have s3 := abs_step_div _ (dec 90 1) _ _ B β s2 f9 (by rw [v9]; norm_num)
    (by rw [v9, abs_le]; constructor <;> linarith) (by linarith) hB hβ
  rw [v9] at s3
  exact s3

/-- Celsius to Fahrenheit, `c * 9.0 / 5.0 + 32.0`: three roundings. -/
theorem fromF_approx (x : F64) (t ε B β L : ℚ) (hx : AbsApprox x t ε)
    (hB : B ≤ 2 ^ (999 : ℤ)) (hβ : 2 ^ (-53 : ℤ) * B + 2 ^ (-1075 : ℤ) ≤ β)
    (hβ2 : β ≤ B / 10000) (hε : ε ≤ B / 1000) (hL : |t| ≤ L) (hLB : 9 * L + 32 ≤ B / 2) :
    AbsApprox (add (div (mul x (dec 90 1)) (dec 50 1)) (dec 320 1)) (t * 9 / 5 + 32)
      ((ε * 9 + β) / 5 + β + β) := by
  obtain ⟨f32, v32⟩ := dec_32
  obtain ⟨f5, v5⟩ := dec_5
  obtain ⟨f9, v9⟩ := dec_9
  obtain ⟨l1, l2⟩ := abs_le.1 hL
  have e0 : 0 ≤ ε := le_trans (abs_nonneg _) hx.2
  have s1 := abs_step_mul x (dec 90 1) t ε B β hx f9 (by rw [v9]; norm_num)
    (by rw [v9, abs_le]; constructor <;> linarith) (by linarith) hB hβ
  rw [v9] at s1
  have s2 := abs_step_div _ (dec 50 1) _ _ B β s1 f5 (by rw [v5]; norm_num)
    (by rw [v5, abs_le]; constructor <;> linarith) (by linarith) hB hβ
  rw [v5] at s2
  have s3 := abs_step_add _ (dec 320 1) _ _ B β s2 f32
    (by rw [v32, abs_le]; constructor <;> linarith) (by linarith) hB hβ
  rw [v32] at s3
  exact s3

/-- Kelvin to Celsius, `k - 273.15`: one rounding. -/
theorem toK_approx (x : F64) (t ε B β L : ℚ) (hx : AbsApprox x t ε)
    (hB : B ≤ 2 ^ (999 : ℤ)) (hβ : 2 ^ (-53 : ℤ) * B + 2 ^ (-1075 : ℤ) ≤ β)
    (hε : ε ≤ B / 1000) (hL : |t| ≤ L) (hLB : L + 274 ≤ B / 2) :
    AbsApprox (sub x (dec 27315 2)) (t - toRat (dec 27315 2)) (ε + β) := by
  obtain ⟨fK, k1, k2⟩ := dec_K
  obtain ⟨l1, l2⟩ := abs_le.1 hL
  have e0 : 0 ≤ ε := le_trans (abs_nonneg _) hx.2
  exact abs_step_sub x (dec 27315 2) t ε B β hx fK
    (by rw [abs_le]; constructor <;> linarith) (by linarith) hB hβ

/-- Celsius to Kelvin, `c + 273.15`: one rounding. -/
theorem fromK_approx (x : F64) (t ε B β L : ℚ) (hx : AbsApprox x t ε)
    (hB : B ≤ 2 ^ (999 : ℤ)) (hβ : 2 ^ (-53 : ℤ) * B + 2 ^ (-1075 : ℤ) ≤ β)
    (hε : ε ≤ B / 1000) (hL : |t| ≤ L) (hLB : L + 274 ≤ B / 2) :
    AbsApprox (add x (dec 27315 2)) (t + toRat (dec 27315 2)) (ε + β) := by
  obtain ⟨fK, k1, k2⟩ := dec_K
  obtain ⟨l1, l2⟩ := abs_le.1 hL
  have e0 : 0 ≤ ε := le_trans (abs_nonneg _) hx.2
  exact abs_step_add x (dec 27315 2) t ε B β hx fK
    (by rw [abs_le]; constructor <;> linarith) (by linarith) hB hβ

end F64

/-! ## `convert` in binary64: the branches -/

theorem find_isSome_iff_mem_keys {V : Type} (m : UMap V) (k : String) :
    (find m k).isSome = true ↔ k ∈ m.map Prod.fst := by
  unfold find
  induction m with
  | nil => simp [List.lookup]
  | cons p tl ih =>
    obtain ⟨k2, v2⟩ := p
    rw [List.lookup_cons]
    by_cases hk : k = k2
    · subst hk
      simp
    · have hb : (k == k2) = false := by simpa using hk
      rw [hb]
      simp [ih, hk]

/-- Whether a key is present depends on the keys of the table only. -/
theorem count_congr {V W : Type} (m : UMap V) (m2 : UMap W)
    (h : m.map Prod.fst = m2.map Prod.fst) (k : String) : count m k = count m2 k := by
  have h1 := find_isSome_iff_mem_keys m k
  have h2 := find_isSome_iff_mem_keys m2 k
  rw [h] at h1
  unfold count
  by_cases hm : k ∈ m2.map Prod.fst
  · rw [if_pos (h1.2 hm), if_pos (h2.2 hm)]
  · rw [if_neg (fun hh => hm (h1.1 hh)), if_neg (fun hh => hm (h2.1 hh))]

theorem ieee_count_length (u : String) : count IEEE.length_factors u = count length_factors u :=
  count_congr _ _ (by decide) u

theorem ieee_count_mass (u : String) : count IEEE.mass_factors u = count mass_factors u :=
  count_congr _ _ (by decide) u

theorem ieee_count_volume (u : String) : count IEEE.volume_factors u = count volume_factors u :=
  count_congr _ _ (by decide) u

theorem ieee_count_temp (u : String) : count IEEE.temp_units u = count temp_units u :=
  count_congr _ _ (by decide) u

theorem ieee_convert_length (a b : String) (fa fb v : F64)
    (ha : find IEEE.length_factors a = some fa) (hb : find IEEE.length_factors b = some fb) :
    IEEE.convert a b v = .ok (F64.div (F64.mul v fa) fb) := by
  simp [IEEE.convert, count_pos_of_find ha, count_pos_of_find hb, map_at, ha, hb]

theorem ieee_convert_mass (a b : String) (fa fb v : F64)
    (ha : find IEEE.mass_factors a = some fa) (hb : find IEEE.mass_factors b = some fb) :
    IEEE.convert a b v = .ok (F64.div (F64.mul v fa) fb) := by
  have hk : isKey .Mass a = true := by
    have := count_pos_of_find ha
    rw [ieee_count_mass] at this
    simpa [isKey] using this
  have h1 := isKey_eq_decide .Mass a hk .Length
  simp only [isKey] at h1
  simp at h1
  rw [← ieee_count_length] at h1
  simp [IEEE.convert, h1, count_pos_of_find ha, count_pos_of_find hb, map_at, ha, hb]

theorem ieee_convert_volume (a b : String) (fa fb v : F64)
    (ha : find IEEE.volume_factors a = some fa) (hb : find IEEE.volume_factors b = some fb) :
    IEEE.convert a b v = .ok (F64.div (F64.mul v fa) fb) := by
  have hk : isKey .Volume a = true := by
    have := count_pos_of_find ha
    rw [ieee_count_volume] at this
    simpa [isKey] using this
  have h1 := isKey_eq_decide .Volume a hk .Length
  have h2 := isKey_eq_decide .Volume a hk .Mass
  simp only [isKey] at h1 h2
  simp at h1 h2
  rw [← ieee_count_length] at h1
  rw [← ieee_count_mass] at h2
  simp [IEEE.convert, h1, h2, count_pos_of_find ha, count_pos_of_find hb, map_at, ha, hb]

theorem ieee_convert_temp (a b : String) (ua ub : IEEE.TempUnit) (v : F64)
    (ha : find IEEE.temp_units a = some ua) (hb : find IEEE.temp_units b = some ub) :
    IEEE.convert a b v = .ok (ub.from_celsius (ua.to_celsius v)) := by
  have hk : isKey .Temperature a = true := by
    have := count_pos_of_find ha
    rw [ieee_count_temp] at this
    simpa [isKey] using this
  have h1 := isKey_eq_decide .Temperature a hk .Length
  have h2 := isKey_eq_decide .Temperature a hk .Mass
  have h3 := isKey_eq_decide .Temperature a hk .Volume
  simp only [isKey] at h1 h2 h3
  simp at h1 h2 h3
  rw [← ieee_count_length] at h1
  rw [← ieee_count_mass] at h2
  rw [← ieee_count_volume] at h3
  simp [IEEE.convert, h1, h2, h3, count_pos_of_find ha, count_pos_of_find hb, IEEE.temp_call,
    ha, hb]

namespace F64

/-- The bound `B` on the magnitudes met in a temperature round trip of `t`, and the error
`β` one rounding adds. -/
theorem temp_budget (t : ℚ) (h1 : 1 / 100 ≤ t) (h2 : t ≤ 10 ^ 250) :
    ∃ B β : ℚ, 1 ≤ B ∧ B ≤ 2 ^ (999 : ℤ) ∧ 2 ^ (-53 : ℤ) * B + 2 ^ (-1075 : ℤ) ≤ β ∧
      β ≤ B / 10000 ∧ B = 18 * t + 6000 ∧ β = B * (113 / 10 ^ 18) := by
  refine ⟨18 * t + 6000, (18 * t + 6000) * (113 / 10 ^ 18), by linarith, ?_,
    (beta_le _ (by linarith)).2, ?_, rfl, rfl⟩
  · have : (18 : ℚ) * 10 ^ 250 + 6000 ≤ 2 ^ (999 : ℤ) := by norm_num
    linarith
  · have : (0 : ℚ) ≤ 18 * t + 6000 := by linarith
    nlinarith

end F64

section TemperatureRoundTrips

open F64


theorem temp_round_trip_CC (v : F64) (hv : isFinite v = true)
    (h1 : 1 / 100 ≤ toRat v) (h2 : toRat v ≤ 10 ^ 250) :
    IEEE.convert "C" "C" v = .ok v ∧
    IEEE.convert "C" "C" v = .ok v ∧
    isFinite v = true ∧
    |toRat v - toRat v| ≤ 1 / 10 ^ 9 * toRat v := by
  refine ⟨ieee_convert_temp "C" "C" _ _ v rfl rfl, ieee_convert_temp "C" "C" _ _ _ rfl rfl, ?_⟩
  obtain ⟨B, β, hB1, hB, hβ, hβ2, hBdef, hβdef⟩ := temp_budget (toRat v) h1 h2
  obtain ⟨fK, k1, k2⟩ := dec_K
  have a0 : AbsApprox v (toRat v) 0 := ⟨hv, by simp⟩
  have e : toRat v = toRat v := by ring
  have sf := a0
  rw [e] at sf
  refine ⟨sf.1, sf.2.trans ?_⟩
  linarith

theorem temp_round_trip_CF (v : F64) (hv : isFinite v = true)
    (h1 : 1 / 100 ≤ toRat v) (h2 : toRat v ≤ 10 ^ 250) :
    IEEE.convert "C" "F" v = .ok (add (div (mul v (dec 90 1)) (dec 50 1)) (dec 320 1)) ∧
    IEEE.convert "F" "C" (add (div (mul v (dec 90 1)) (dec 50 1)) (dec 320 1)) = .ok (div (mul (sub (add (div (mul v (dec 90 1)) (dec 50 1)) (dec 320 1)) (dec 320 1)) (dec 50 1)) (dec 90 1)) ∧
    isFinite (div (mul (sub (add (div (mul v (dec 90 1)) (dec 50 1)) (dec 320 1)) (dec 320 1)) (dec 50 1)) (dec 90 1)) = true ∧
    |toRat (div (mul (sub (add (div (mul v (dec 90 1)) (dec 50 1)) (dec 320 1)) (dec 320 1)) (dec 50 1)) (dec 90 1)) - toRat v| ≤ 1 / 10 ^ 9 * toRat v := by
  refine ⟨ieee_convert_temp "C" "F" _ _ v rfl rfl, ieee_convert_temp "F" "C" _ _ _ rfl rfl, ?_⟩
  obtain ⟨B, β, hB1, hB, hβ, hβ2, hBdef, hβdef⟩ := temp_budget (toRat v) h1 h2
  obtain ⟨fK, k1, k2⟩ := dec_K
  have a0 : AbsApprox v (toRat v) 0 := ⟨hv, by simp⟩
  have s1 := fromF_approx _ _ _ B β (1 / 1 * toRat v + 0 / 1) a0 hB hβ hβ2 (by linarith) (by rw [abs_le]; constructor <;> linarith) (by linarith)
  have s2 := toF_approx _ _ _ B β (9 / 5 * toRat v + 32 / 1) s1 hB hβ hβ2 (by linarith) (by rw [abs_le]; constructor <;> linarith) (by linarith)
  have e : (((toRat v * 9 / 5 + 32) - 32) * 5 / 9) = toRat v := by ring
  have sf := s2
  rw [e] at sf
  refine ⟨sf.1, sf.2.trans ?_⟩
  linarith

theorem temp_round_trip_CK (v : F64) (hv : isFinite v = true)
    (h1 : 1 / 100 ≤ toRat v) (h2 : toRat v ≤ 10 ^ 250) :
    IEEE.convert "C" "K" v = .ok (add v (dec 27315 2)) ∧
    IEEE.convert "K" "C" (add v (dec 27315 2)) = .ok (sub (add v (dec 27315 2)) (dec 27315 2)) ∧
    isFinite (sub (add v (dec 27315 2)) (dec 27315 2)) = true ∧
    |toRat (sub (add v (dec 27315 2)) (dec 27315 2)) - toRat v| ≤ 1 / 10 ^ 9 * toRat v := by
  refine ⟨ieee_convert_temp "C" "K" _ _ v rfl rfl, ieee_convert_temp "K" "C" _ _ _ rfl rfl, ?_⟩
  obtain ⟨B, β, hB1, hB, hβ, hβ2, hBdef, hβdef⟩ := temp_budget (toRat v) h1 h2
  obtain ⟨fK, k1, k2⟩ := dec_K
  have a0 : AbsApprox v (toRat v) 0 := ⟨hv, by simp⟩
  have s1 := fromK_approx _ _ _ B β (1 / 1 * toRat v + 0 / 1) a0 hB hβ (by linarith) (by rw [abs_le]; constructor <;> linarith) (by linarith)
  have s2 := toK_approx _ _ _ B β (1 / 1 * toRat v + 274 / 1) s1 hB hβ (by linarith) (by rw [abs_le]; constructor <;> linarith) (by linarith)
  have e : ((toRat v + toRat (dec 27315 2)) - toRat (dec 27315 2)) = toRat v := by ring
  have sf := s2
  rw [e] at sf
  refine ⟨sf.1, sf.2.trans ?_⟩
  linarith

theorem temp_round_trip_FC (v : F64) (hv : isFinite v = true)
    (h1 : 1 / 100 ≤ toRat v) (h2 : toRat v ≤ 10 ^ 250) :
    IEEE.convert "F" "C" v = .ok (div (mul (sub v (dec 320 1)) (dec 50 1)) (dec 90 1)) ∧
    IEEE.convert "C" "F" (div (mul (sub v (dec 320 1)) (dec 50 1)) (dec 90 1)) = .ok (add (div (mul (div (mul (sub v (dec 320 1)) (dec 50 1)) (dec 90 1)) (dec 90 1)) (dec 50 1)) (dec 320 1)) ∧
    isFinite (add (div (mul (div (mul (sub v (dec 320 1)) (dec 50 1)) (dec 90 1)) (dec 90 1)) (dec 50 1)) (dec 320 1)) = true ∧
    |toRat (add (div (mul (div (mul (sub v (dec 320 1)) (dec 50 1)) (dec 90 1)) (dec 90 1)) (dec 50 1)) (dec 320 1)) - toRat v| ≤ 1 / 10 ^ 9 * toRat v := by
  refine ⟨ieee_convert_temp "F" "C" _ _ v rfl rfl, ieee_convert_temp "C" "F" _ _ _ rfl rfl, ?_⟩
  obtain ⟨B, β, hB1, hB, hβ, hβ2, hBdef, hβdef⟩ := temp_budget (toRat v) h1 h2
  obtain ⟨fK, k1, k2⟩ := dec_K
  have a0 : AbsApprox v (toRat v) 0 := ⟨hv, by simp⟩
  have s1 := toF_approx _ _ _ B β (1 / 1 * toRat v + 0 / 1) a0 hB hβ hβ2 (by linarith) (by rw [abs_le]; constructor <;> linarith) (by linarith)
  have s2 := fromF_approx _ _ _ B β (5 / 9 * toRat v + 160 / 9) s1 hB hβ hβ2 (by linarith) (by rw [abs_le]; constructor <;> linarith) (by linarith)
  have e : (((toRat v - 32) * 5 / 9) * 9 / 5 + 32) = toRat v := by ring
  have sf := s2
  rw [e] at sf
  refine ⟨sf.1, sf.2.trans ?_⟩
  linarith

theorem temp_round_trip_FF (v : F64) (hv : isFinite v = true)
    (h1 : 1 / 100 ≤ toRat v) (h2 : toRat v ≤ 10 ^ 250) :
    IEEE.convert "F" "F" v = .ok (add (div (mul (div (mul (sub v (dec 320 1)) (dec 50 1)) (dec 90 1)) (dec 90 1)) (dec 50 1)) (dec 320 1)) ∧
    IEEE.convert "F" "F" (add (div (mul (div (mul (sub v (dec 320 1)) (dec 50 1)) (dec 90 1)) (dec 90 1)) (dec 50 1)) (dec 320 1)) = .ok (add (div (mul (div (mul (sub (add (div (mul (div (mul (sub v (dec 320 1)) (dec 50 1)) (dec 90 1)) (dec 90 1)) (dec 50 1)) (dec 320 1)) (dec 320 1)) (dec 50 1)) (dec 90 1)) (dec 90 1)) (dec 50 1)) (dec 320 1)) ∧
    isFinite (add (div (mul (div (mul (sub (add (div (mul (div (mul (sub v (dec 320 1)) (dec 50 1)) (dec 90 1)) (dec 90 1)) (dec 50 1)) (dec 320 1)) (dec 320 1)) (dec 50 1)) (dec 90 1)) (dec 90 1)) (dec 50 1)) (dec 320 1)) = true ∧
    |toRat (add (div (mul (div (mul (sub (add (div (mul (div (mul (sub v (dec 320 1)) (dec 50 1)) (dec 90 1)) (dec 90 1)) (dec 50 1)) (dec 320 1)) (dec 320 1)) (dec 50 1)) (dec 90 1)) (dec 90 1)) (dec 50 1)) (dec 320 1)) - toRat v| ≤ 1 / 10 ^ 9 * toRat v := by
  refine ⟨ieee_convert_temp "F" "F" _ _ v rfl rfl, ieee_convert_temp "F" "F" _ _ _ rfl rfl, ?_⟩
  obtain ⟨B, β, hB1, hB, hβ, hβ2, hBdef, hβdef⟩ := temp_budget (toRat v) h1 h2
  obtain ⟨fK, k1, k2⟩ := dec_K
  have a0 : AbsApprox v (toRat v) 0 := ⟨hv, by simp⟩
  have s1 := toF_approx _ _ _ B β (1 / 1 * toRat v + 0 / 1) a0 hB hβ hβ2 (by linarith) (by rw [abs_le]; constructor <;> linarith) (by linarith)
  have s2 := fromF_approx _ _ _ B β (5 / 9 * toRat v + 160 / 9) s1 hB hβ hβ2 (by linarith) (by rw [abs_le]; constructor <;> linarith) (by linarith)
  have s3 := toF_approx _ _ _ B β (1 / 1 * toRat v + 0 / 1) s2 hB hβ hβ2 (by linarith) (by rw [abs_le]; constructor <;> linarith) (by linarith)
  have s4 := fromF_approx _ _ _ B β (5 / 9 * toRat v + 160 / 9) s3 hB hβ hβ2 (by linarith) (by rw [abs_le]; constructor <;> linarith) (by linarith)
  have e : ((((((toRat v - 32) * 5 / 9) * 9 / 5 + 32) - 32) * 5 / 9) * 9 / 5 + 32) = toRat v := by ring
  have sf := s4
  rw [e] at sf
  refine ⟨sf.1, sf.2.trans ?_⟩
  linarith

theorem temp_round_trip_FK (v : F64) (hv : isFinite v = true)
    (h1 : 1 / 100 ≤ toRat v) (h2 : toRat v ≤ 10 ^ 250) :
    IEEE.convert "F" "K" v = .ok (add (div (mul (sub v (dec 320 1)) (dec 50 1)) (dec 90 1)) (dec 27315 2)) ∧
    IEEE.convert "K" "F" (add (div (mul (sub v (dec 320 1)) (dec 50 1)) (dec 90 1)) (dec 27315 2)) = .ok (add (div (mul (sub (add (div (mul (sub v (dec 320 1)) (dec 50 1)) (dec 90 1)) (dec 27315 2)) (dec 27315 2)) (dec 90 1)) (dec 50 1)) (dec 320 1)) ∧
    isFinite (add (div (mul (sub (add (div (mul (sub v (dec 320 1)) (dec 50 1)) (dec 90 1)) (dec 27315 2)) (dec 27315 2)) (dec 90 1)) (dec 50 1)) (dec 320 1)) = true ∧
    |toRat (add (div (mul (sub (add (div (mul (sub v (dec 320 1)) (dec 50 1)) (dec 90 1)) (dec 27315 2)) (dec 27315 2)) (dec 90 1)) (dec 50 1)) (dec 320 1)) - toRat v| ≤ 1 / 10 ^ 9 * toRat v := by
  refine ⟨ieee_convert_temp "F" "K" _ _ v rfl rfl, ieee_convert_temp "K" "F" _ _ _ rfl rfl, ?_⟩
  obtain ⟨B, β, hB1, hB, hβ, hβ2, hBdef, hβdef⟩ := temp_budget (toRat v) h1 h2
  obtain ⟨fK, k1, k2⟩ := dec_K
  have a0 : AbsApprox v (toRat v) 0 := ⟨hv, by simp⟩
  have s1 := toF_approx _ _ _ B β (1 / 1 * toRat v + 0 / 1) a0 hB hβ hβ2 (by linarith) (by rw [abs_le]; constructor <;> linarith) (by linarith)
  have s2 := fromK_approx _ _ _ B β (5 / 9 * toRat v + 160 / 9) s1 hB hβ (by linarith) (by rw [abs_le]; constructor <;> linarith) (by linarith)
  have s3 := toK_approx _ _ _ B β (5 / 9 * toRat v + 2626 / 9) s2 hB hβ (by linarith) (by rw [abs_le]; constructor <;> linarith) (by linarith)
  have s4 := fromF_approx _ _ _ B β (5 / 9 * toRat v + 160 / 9) s3 hB hβ hβ2 (by linarith) (by rw [abs_le]; constructor <;> linarith) (by linarith)
  have e : (((((toRat v - 32) * 5 / 9) + toRat (dec 27315 2)) - toRat (dec 27315 2)) * 9 / 5 + 32) = toRat v := by ring
  have sf := s4
  rw [e] at sf
  refine ⟨sf.1, sf.2.trans ?_⟩
  linarith

theorem temp_round_trip_KC (v : F64) (hv : isFinite v = true)
    (h1 : 1 / 100 ≤ toRat v) (h2 : toRat v ≤ 10 ^ 250) :
    IEEE.convert "K" "C" v = .ok (sub v (dec 27315 2)) ∧
    IEEE.convert "C" "K" (sub v (dec 27315 2)) = .ok (add (sub v (dec 27315 2)) (dec 27315 2)) ∧
    isFinite (add (sub v (dec 27315 2)) (dec 27315 2)) = true ∧
    |toRat (add (sub v (dec 27315 2)) (dec 27315 2)) - toRat v| ≤ 1 / 10 ^ 9 * toRat v := by
  refine ⟨ieee_convert_temp "K" "C" _ _ v rfl rfl, ieee_convert_temp "C" "K" _ _ _ rfl rfl, ?_⟩
  obtain ⟨B, β, hB1, hB, hβ, hβ2, hBdef, hβdef⟩ := temp_budget (toRat v) h1 h2
  obtain ⟨fK, k1, k2⟩ := dec_K
  have a0 : AbsApprox v (toRat v) 0 := ⟨hv, by simp⟩
  have s1 := toK_approx _ _ _ B β (1 / 1 * toRat v + 0 / 1) a0 hB hβ (by linarith) (by rw [abs_le]; constructor <;> linarith) (by linarith)
  have s2 := fromK_approx _ _ _ B β (1 / 1 * toRat v + 274 / 1) s1 hB hβ (by linarith) (by rw [abs_le]; constructor <;> linarith) (by linarith)
  have e : ((toRat v - toRat (dec 27315 2)) + toRat (dec 27315 2)) = toRat v := by ring
  have sf := s2
  rw [e] at sf
  refine ⟨sf.1, sf.2.trans ?_⟩
  linarith

theorem temp_round_trip_KF (v : F64) (hv : isFinite v = true)
    (h1 : 1 / 100 ≤ toRat v) (h2 : toRat v ≤ 10 ^ 250) :
    IEEE.convert "K" "F" v = .ok (add (div (mul (sub v (dec 27315 2)) (dec 90 1)) (dec 50 1)) (dec 320 1)) ∧
    IEEE.convert "F" "K" (add (div (mul (sub v (dec 27315 2)) (dec 90 1)) (dec 50 1)) (dec 320 1)) = .ok (add (div (mul (sub (add (div (mul (sub v (dec 27315 2)) (dec 90 1)) (dec 50 1)) (dec 320 1)) (dec 320 1)) (dec 50 1)) (dec 90 1)) (dec 27315 2)) ∧
    isFinite (add (div (mul (sub (add (div (mul (sub v (dec 27315 2)) (dec 90 1)) (dec 50 1)) (dec 320 1)) (dec 320 1)) (dec 50 1)) (dec 90 1)) (dec 27315 2)) = true ∧
    |toRat (add (div (mul (sub (add (div (mul (sub v (dec 27315 2)) (dec 90 1)) (dec 50 1)) (dec 320 1)) (dec 320 1)) (dec 50 1)) (dec 90 1)) (dec 27315 2)) - toRat v| ≤ 1 / 10 ^ 9 * toRat v := by
  refine ⟨ieee_convert_temp "K" "F" _ _ v rfl rfl, ieee_convert_temp "F" "K" _ _ _ rfl rfl, ?_⟩
  obtain ⟨B, β, hB1, hB, hβ, hβ2, hBdef, hβdef⟩ := temp_budget (toRat v) h1 h2
  obtain ⟨fK, k1, k2⟩ := dec_K
  have a0 : AbsApprox v (toRat v) 0 := ⟨hv, by simp⟩
  have s1 := toK_approx _ _ _ B β (1 / 1 * toRat v + 0 / 1) a0 hB hβ (by linarith) (by rw [abs_le]; constructor <;> linarith) (by linarith)
  have s2 := fromF_approx _ _ _ B β (1 / 1 * toRat v + 274 / 1) s1 hB hβ hβ2 (by linarith) (by rw [abs_le]; constructor <;> linarith) (by linarith)
  have s3 := toF_approx _ _ _ B β (9 / 5 * toRat v + 2626 / 5) s2 hB hβ hβ2 (by linarith) (by rw [abs_le]; constructor <;> linarith) (by linarith)
  have s4 := fromK_approx _ _ _ B β (1 / 1 * toRat v + 274 / 1) s3 hB hβ (by linarith) (by rw [abs_le]; constructor <;> linarith) (by linarith)
  have e : (((((toRat v - toRat (dec 27315 2)) * 9 / 5 + 32) - 32) * 5 / 9) + toRat (dec 27315 2)) = toRat v := by ring
  have sf := s4
  rw [e] at sf
  refine ⟨sf.1, sf.2.trans ?_⟩
  linarith

theorem temp_round_trip_KK (v : F64) (hv : isFinite v = true)
    (h1 : 1 / 100 ≤ toRat v) (h2 : toRat v ≤ 10 ^ 250) :
    IEEE.convert "K" "K" v = .ok (add (sub v (dec 27315 2)) (dec 27315 2)) ∧
    IEEE.convert "K" "K" (add (sub v (dec 27315 2)) (dec 27315 2)) = .ok (add (sub (add (sub v (dec 27315 2)) (dec 27315 2)) (dec 27315 2)) (dec 27315 2)) ∧
    isFinite (add (sub (add (sub v (dec 27315 2)) (dec 27315 2)) (dec 27315 2)) (dec 27315 2)) = true ∧
    |toRat (add (sub (add (sub v (dec 27315 2)) (dec 27315 2)) (dec 27315 2)) (dec 27315 2)) - toRat v| ≤ 1 / 10 ^ 9 * toRat v := by
  refine ⟨ieee_convert_temp "K" "K" _ _ v rfl rfl, ieee_convert_temp "K" "K" _ _ _ rfl rfl, ?_⟩
  obtain ⟨B, β, hB1, hB, hβ, hβ2, hBdef, hβdef⟩ := temp_budget (toRat v) h1 h2
  obtain ⟨fK, k1, k2⟩ := dec_K
  have a0 : AbsApprox v (toRat v) 0 := ⟨hv, by simp⟩
  have s1 := toK_approx _ _ _ B β (1 / 1 * toRat v + 0 / 1) a0 hB hβ (by linarith) (by rw [abs_le]; constructor <;> linarith) (by linarith)
  have s2 := fromK_approx _ _ _ B β (1 / 1 * toRat v + 274 / 1) s1 hB hβ (by linarith) (by rw [abs_le]; constructor <;> linarith) (by linarith)
  have s3 := toK_approx _ _ _ B β (1 / 1 * toRat v + 0 / 1) s2 hB hβ (by linarith) (by rw [abs_le]; constructor <;> linarith) (by linarith)
  have s4 := fromK_approx _ _ _ B β (1 / 1 * toRat v + 274 / 1) s3 hB hβ (by linarith) (by rw [abs_le]; constructor <;> linarith) (by linarith)
  have e : ((((toRat v - toRat (dec 27315 2)) + toRat (dec 27315 2)) - toRat (dec 27315 2)) + toRat (dec 27315 2)) = toRat v := by ring
  have sf := s4
  rw [e] at sf
  refine ⟨sf.1, sf.2.trans ?_⟩
  linarith

end TemperatureRoundTrips

/-! ## Round trips in binary64 -/

theorem length_factors_normal : ∀ p ∈ IEEE.length_factors, F64.normalIn (-72) (-42) p.2 = true := by
  set_option maxRecDepth 100000 in
  decide

theorem mass_factors_normal : ∀ p ∈ IEEE.mass_factors, F64.normalIn (-72) (-42) p.2 = true := by
  set_option maxRecDepth 100000 in
  decide

theorem volume_factors_normal : ∀ p ∈ IEEE.volume_factors, F64.normalIn (-72) (-42) p.2 = true := by
  set_option maxRecDepth 100000 in
  decide

/-- A relative error of at most `8 * 2^-52` is within the tolerance `1e-9`. -/
theorem relApprox_tolerance (x : F64) (t κ : ℚ) (ht : 0 < t) (hκ : κ ≤ 8)
    (h : F64.RelApprox x t κ) :
    F64.isFinite x = true ∧ |F64.toRat x - t| ≤ 1 / 10 ^ 9 * t := by
  refine ⟨h.1, h.2.trans ?_⟩
  have h1 : (8 : ℚ) * 2 ^ (-52 : ℤ) ≤ 1 / 10 ^ 9 := by norm_num
  have h2 : κ * 2 ^ (-52 : ℤ) ≤ 8 * 2 ^ (-52 : ℤ) :=
    mul_le_mul_of_nonneg_right hκ (F64.two_zpow_pos _).le
  exact mul_le_mul_of_nonneg_right (h2.trans h1) ht.le

theorem range_pow2 (t : ℚ) (hlo : 1 / 10 ^ 250 ≤ t) (hhi : t ≤ 10 ^ 250) :
    (2 : ℚ) ^ (-850 : ℤ) ≤ t ∧ t ≤ 2 ^ (850 : ℤ) := by
  have h1 : (2 : ℚ) ^ (-850 : ℤ) ≤ 1 / 10 ^ 250 := by norm_num
  have h2 : (10 : ℚ) ^ 250 ≤ 2 ^ (850 : ℤ) := by norm_num
  exact ⟨h1.trans hlo, hhi.trans h2⟩

/-- The round trip between two units of a linear table, for a value between `1e-250` and
`1e250`. -/
theorem linear_round_trip_tolerance (fa fb v : F64) (hfa : F64.normalIn (-72) (-42) fa = true)
    (hfb : F64.normalIn (-72) (-42) fb = true) (hv : F64.isFinite v = true)
    (hlo : 1 / 10 ^ 250 ≤ F64.toRat v) (hhi : F64.toRat v ≤ 10 ^ 250) :
    F64.isFinite (F64.div (F64.mul (F64.div (F64.mul v fa) fb) fb) fa) = true ∧
    |F64.toRat (F64.div (F64.mul (F64.div (F64.mul v fa) fb) fb) fa) - F64.toRat v| ≤
      1 / 10 ^ 9 * F64.toRat v := by
  have pv : 0 < F64.toRat v := lt_of_lt_of_le (by positivity) hlo
  exact relApprox_tolerance _ _ 8 pv le_rfl
    (F64.linear_round_trip fa fb v hfa hfb hv (range_pow2 _ hlo hhi))

/-- C4 as stated fails: 1e-6 °F converted to kelvins and back is `9.999999903698154e-07`,
a relative error of `9.6e-9`, above the tolerance `1e-9`; and the largest double, taken as
kilometres, overflows to infinity on the way to millimetres and stays there. -/
theorem C4_counterexample :
    isKey .Temperature "F" = true ∧ isKey .Temperature "K" = true ∧
    F64.dec 1 6 = .finite false 4722366482869645 (-72) ∧
    IEEE.convert "F" "K" (F64.dec 1 6) = .ok (.finite false 8985111307365431 (-45)) ∧
    IEEE.convert "K" "F" (.finite false 8985111307365431 (-45)) =
      .ok (.finite false 4722366437392384 (-72)) ∧
    ¬ (|F64.toRat (.finite false 4722366437392384 (-72)) -
          F64.toRat (.finite false 4722366482869645 (-72))| ≤
        1 / 10 ^ 9 * F64.toRat (.finite false 4722366482869645 (-72))) ∧
    IEEE.convert "km" "mm" (.finite false 9007199254740991 971) = .ok (.inf false) ∧
    IEEE.convert "mm" "km" (.inf false) = .ok (.inf false) := by
  refine ⟨by decide, by decide, ?_, ?_, ?_, ?_, ?_, ?_⟩
  · decide
  · set_option maxRecDepth 100000 in
    decide
  · set_option maxRecDepth 100000 in
    decide
  · norm_num [F64.toRat, abs_le]
  · decide!
  · decide

/-- C4 amended: for two units of the same table and a finite value `v` between `1e-250` and
`1e250`, and at least `0.01` for a temperature, converting there and back succeeds and
returns a finite number within the relative tolerance `1e-9` of `v`. -/
theorem C4_round_trip_in_range (c : Category) (a b : String) (v : F64)
    (ha : isKey c a = true) (hb : isKey c b = true) (hv : F64.isFinite v = true)
    (hlo : 1 / 10 ^ 250 ≤ F64.toRat v) (hhi : F64.toRat v ≤ 10 ^ 250)
    (htemp : c = .Temperature → 1 / 100 ≤ F64.toRat v) :
    ∃ r back, IEEE.convert a b v = .ok r ∧ IEEE.convert b a r = .ok back ∧
      F64.isFinite back = true ∧
      |F64.toRat back - F64.toRat v| ≤ 1 / 10 ^ 9 * F64.toRat v := by
  cases c
  · obtain ⟨fa, hfa⟩ := (count_pos_iff _ _).1 (by rw [ieee_count_length]; simpa [isKey] using ha)
    obtain ⟨fb, hfb⟩ := (count_pos_iff _ _).1 (by rw [ieee_count_length]; simpa [isKey] using hb)
    exact ⟨_, _, ieee_convert_length a b fa fb v hfa hfb, ieee_convert_length b a fb fa _ hfb hfa,
      linear_round_trip_tolerance fa fb v (length_factors_normal _ (find_mem _ _ _ hfa))
        (length_factors_normal _ (find_mem _ _ _ hfb)) hv hlo hhi⟩
  · obtain ⟨fa, hfa⟩ := (count_pos_iff _ _).1 (by rw [ieee_count_mass]; simpa [isKey] using ha)
    obtain ⟨fb, hfb⟩ := (count_pos_iff _ _).1 (by rw [ieee_count_mass]; simpa [isKey] using hb)
    exact ⟨_, _, ieee_convert_mass a b fa fb v hfa hfb, ieee_convert_mass b a fb fa _ hfb hfa,
      linear_round_trip_tolerance fa fb v (mass_factors_normal _ (find_mem _ _ _ hfa))
        (mass_factors_normal _ (find_mem _ _ _ hfb)) hv hlo hhi⟩
  · obtain ⟨fa, hfa⟩ := (count_pos_iff _ _).1 (by rw [ieee_count_volume]; simpa [isKey] using ha)
    obtain ⟨fb, hfb⟩ := (count_pos_iff _ _).1 (by rw [ieee_count_volume]; simpa [isKey] using hb)
    exact ⟨_, _, ieee_convert_volume a b fa fb v hfa hfb,
      ieee_convert_volume b a fb fa _ hfb hfa,
      linear_round_trip_tolerance fa fb v (volume_factors_normal _ (find_mem _ _ _ hfa))
        (volume_factors_normal _ (find_mem _ _ _ hfb)) hv hlo hhi⟩
  · have h1 := htemp rfl
    have ka : a ∈ ["C", "F", "K"] := isKey_mem_keys .Temperature a ha
    have kb : b ∈ ["C", "F", "K"] := isKey_mem_keys .Temperature b hb
    simp only [List.mem_cons, List.mem_nil_iff, or_false] at ka kb
    rcases ka with rfl | rfl | rfl <;> rcases kb with rfl | rfl | rfl
    · exact ⟨_, _, temp_round_trip_CC v hv h1 hhi⟩
    · exact ⟨_, _, temp_round_trip_CF v hv h1 hhi⟩
    · exact ⟨_, _, temp_round_trip_CK v hv h1 hhi⟩
    · exact ⟨_, _, temp_round_trip_FC v hv h1 hhi⟩
    · exact ⟨_, _, temp_round_trip_FF v hv h1 hhi⟩
    · exact ⟨_, _, temp_round_trip_FK v hv h1 hhi⟩
    · exact ⟨_, _, temp_round_trip_KC v hv h1 hhi⟩
    · exact ⟨_, _, temp_round_trip_KF v hv h1 hhi⟩
    · exact ⟨_, _, temp_round_trip_KK v hv h1 hhi⟩

theorem C4_round_trip_in_range_witness :
    ∃ r back, IEEE.convert "F" "K" (F64.dec 4510 1) = .ok r ∧
      IEEE.convert "K" "F" r = .ok back ∧ F64.isFinite back = true ∧
      |F64.toRat back - F64.toRat (F64.dec 4510 1)| ≤
        1 / 10 ^ 9 * F64.toRat (F64.dec 4510 1) :=
  have h : F64.dec 4510 1 = .finite false 7934075906031616 (-44) := by decide
  C4_round_trip_in_range .Temperature "F" "K" (F64.dec 4510 1) (by decide) (by decide)
    (by rw [h]; rfl) (by rw [h]; norm_num [F64.toRat]) (by rw [h]; norm_num [F64.toRat])
    (fun _ => by rw [h]; norm_num [F64.toRat])

/-! ## Identity and composition in binary64 -/

end Convert
